import Mathlib

/-!
# Verification of the CSS3 tokenizer / parser (benbjohnson/css)

A shallow embedding of the repository's tokenizer (`tokenizer.go`), parser
(`parser.go`), printer (`printer.go`) and the AST / token data model, together
with theorems settling the specification claims.

Modelling conventions:
* Go `rune` values are modelled as `Int` code points (`CP`); the tokenizer's
  `eof` sentinel is `-1`, exactly as in the source.
* The tokenizer's 4-slot circular lookahead buffer, its pushback counter and
  the position bookkeeping of `read` / `unread` are reproduced verbatim,
  including the quirks of the source (stale buffer slots after a `\r`
  lookahead pushback, positions assigned after incrementing, and so on).
* Unbounded loops take a fuel argument and return `none` when it runs out;
  bounded loops (hex digits, escapes) are structural.
* Go `float64` token values (`strconv.ParseFloat`) are modelled as exact
  rationals of the parsed decimal representation.  Every numeric value the
  claims touch is a small integer, on which the two semantics agree.
* Go run-time panics (failing interface type assertions such as
  `s.Current().(*Token)`) are modelled as `none`.
-/

set_option maxRecDepth 4000

namespace Css

/-- A code point as the Go tokenizer sees it: a `rune` (`int32`), with the
distinguished sentinel `eof = -1` (`tokenizer.go`, `var eof rune = -1`). -/
abbrev CP : Type := Int

/-- `eof` sentinel from `tokenizer.go`. -/
def eofCP : CP := -1

/-- Embed an input character as a code point. -/
def toCP (c : Char) : CP := (c.toNat : Int)

/-- Go `string(r)` / `bytes.Buffer.WriteRune r`: an invalid rune (negative,
surrogate, or beyond U+10FFFF) is written as U+FFFD. -/
def cpChar (n : CP) : Char :=
  if 0 ≤ n ∧ Nat.isValidChar n.toNat then Char.ofNat n.toNat else '�'

/-- Source position (`Pos` in the data model): `Char` and `Line` fields,
Go `int`s. -/
structure Pos where
  char : Int
  line : Int
deriving DecidableEq, Repr

instance : Inhabited Pos := ⟨⟨0, 0⟩⟩

/-- A scanning error (`Error{Message, Pos}` from `css.go`). -/
structure Error where
  message : String
  pos : Pos
deriving DecidableEq, Repr

/-! ## Character predicates (`tokenizer.go`, bottom of file) -/

/-- `isWhitespace`: space, tab, or newline. -/
def isWhitespace (ch : CP) : Bool :=
  ch == toCP ' ' || ch == toCP '\t' || ch == toCP '\n'

/-- `isLetter`. -/
def isLetter (ch : CP) : Bool :=
  (toCP 'a' ≤ ch && ch ≤ toCP 'z') || (toCP 'A' ≤ ch && ch ≤ toCP 'Z')

/-- `isDigit`. -/
def isDigit (ch : CP) : Bool :=
  toCP '0' ≤ ch && ch ≤ toCP '9'

/-- `isHexDigit`. -/
def isHexDigit (ch : CP) : Bool :=
  (toCP '0' ≤ ch && ch ≤ toCP '9') || (toCP 'a' ≤ ch && ch ≤ toCP 'f') ||
    (toCP 'A' ≤ ch && ch ≤ toCP 'F')

/-- `isNonASCII`: `ch >= '\u0080'`. -/
def isNonASCII (ch : CP) : Bool := (0x80 : Int) ≤ ch

/-- `isNameStart`. -/
def isNameStart (ch : CP) : Bool := isLetter ch || isNonASCII ch || ch == toCP '_'

/-- `isName`. -/
def isName (ch : CP) : Bool := isNameStart ch || isDigit ch || ch == toCP '-'

/-- `isNonPrintable`. -/
def isNonPrintable (ch : CP) : Bool :=
  ((0 : Int) ≤ ch && ch ≤ 0x08) || ch == 0x0B || (0x0E ≤ ch && ch ≤ 0x1F) || ch == 0x7F

/-! ## Number parsing helpers -/

/-- Character-level decimal digit predicate (for specification-side lists). -/
def isDigitChar (c : Char) : Bool := isDigit (toCP c)

/-- Character-level hex digit predicate. -/
def isHexDigitChar (c : Char) : Bool := isHexDigit (toCP c)

/-- Value of one hex digit character. -/
def hexDigitVal (c : Char) : Nat :=
  if '0' ≤ c ∧ c ≤ '9' then c.toNat - '0'.toNat
  else if 'a' ≤ c ∧ c ≤ 'f' then c.toNat - 'a'.toNat + 10
  else if 'A' ≤ c ∧ c ≤ 'F' then c.toNat - 'A'.toNat + 10
  else 0

/-- Accumulate hex digits left to right. -/
def hexFold (l : List Char) : Nat :=
  l.foldl (fun a c => 16 * a + hexDigitVal c) 0

/-- `strconv.ParseInt(s, 16, 0)` with the error discarded, as the tokenizer
uses it: a syntax error (empty string or a non-hex character) yields `0`.
The tokenizer only ever parses at most 7 hex digits, so the 64-bit range
error of `ParseInt` cannot occur. -/
def goParseHexInt (s : String) : Int :=
  if s.data ≠ [] ∧ s.data.all isHexDigitChar then (hexFold s.data : Int) else 0

/-- Accumulate decimal digits left to right. -/
def decFold (l : List Char) : Nat :=
  l.foldl (fun a c => 10 * a + (c.toNat - '0'.toNat)) 0

/-- `strconv.ParseFloat(s, 64)` with the error discarded, on the shapes of
representation the tokenizer builds (`[+-]? digits [. digits]? [eE [+-]? digits]?`),
modelled as an exact rational.  A syntax error yields `0` (the Go code ignores
the error and keeps the zero value).  Go rounds to the nearest `float64`;
every numeric value appearing in the claims is a small integer, where the two
agree exactly. -/
def goParseFloat (s : String) : Rat :=
  let l := s.data
  let sign : Rat := if l.head? = some '-' then -1 else 1
  let l1 := if l.head? = some '-' ∨ l.head? = some '+' then l.tail else l
  let d1 := l1.takeWhile isDigitChar
  let rest1 := l1.drop d1.length
  let hasDot : Bool := rest1.head? = some '.'
  let afterDot := if hasDot then rest1.tail else rest1
  let d2 := if hasDot then afterDot.takeWhile isDigitChar else []
  let rest2 := if hasDot then afterDot.drop d2.length else rest1
  let hasExp : Bool := rest2.head? = some 'e' ∨ rest2.head? = some 'E'
  let afterE := if hasExp then rest2.tail else rest2
  let esign : Int := if afterE.head? = some '-' then -1 else 1
  let eRest := if afterE.head? = some '-' ∨ afterE.head? = some '+' then afterE.tail else afterE
  let d3 := eRest.takeWhile isDigitChar
  let rest3 := eRest.drop d3.length
  if (d1 ≠ [] ∨ d2 ≠ []) ∧ (if hasExp then d3 ≠ [] ∧ rest3 = [] else rest2 = []) then
    sign * ((decFold d1 : Rat) + (decFold d2 : Rat) / (10 : Rat) ^ d2.length)
      * (10 : Rat) ^ (esign * (decFold d3 : Int))
  else 0

/-! ## The character stream (`read` / `unread` / `curr` / `Pos`)

The tokenizer holds a 4-slot circular buffer of runes and positions
(`buf`, `bufpos`), a buffer index `bufi` and a pushback count `bufn`.
Go's zero values (rune `0`, `Pos{0,0}`) initialise the buffer. -/

/-- A fixed 4-slot circular buffer. -/
structure Buf4 (α : Type) where
  b0 : α
  b1 : α
  b2 : α
  b3 : α
deriving Repr

/-- Read slot `i` of a 4-slot buffer. -/
def Buf4.get {α : Type} (b : Buf4 α) : Fin 4 → α
  | 0 => b.b0
  | 1 => b.b1
  | 2 => b.b2
  | 3 => b.b3

/-- Write slot `i` of a 4-slot buffer. -/
def Buf4.set {α : Type} (b : Buf4 α) (i : Fin 4) (x : α) : Buf4 α :=
  match i with
  | 0 => { b with b0 := x }
  | 1 => { b with b1 := x }
  | 2 => { b with b2 := x }
  | 3 => { b with b3 := x }

/-- The tokenizer's character-level state: remaining reader input plus the
circular lookahead buffer and the error list (`Tokenizer` struct fields
`rd`, `buf`, `bufpos`, `bufi`, `bufn`, `Errors`). -/
structure TState where
  rd : List Char
  buf : Buf4 CP
  bufpos : Buf4 Pos
  bufi : Fin 4
  bufn : Nat
  errors : List Error

/-- Fresh tokenizer state over an input (Go zero-valued buffers). -/
def mkTState (l : List Char) : TState :=
  ⟨l, ⟨0, 0, 0, 0⟩, ⟨⟨0, 0⟩, ⟨0, 0⟩, ⟨0, 0⟩, ⟨0, 0⟩⟩, 0, 0, []⟩

/-- `curr`: the current code point, `buf[bufi]`. -/
def TState.curr (t : TState) : CP := t.buf.get t.bufi

/-- `Pos()`: position of the current code point, `bufpos[bufi]`. -/
def TState.pos (t : TState) : Pos := t.bufpos.get t.bufi

/-- `unread(n)`: move the buffer index back `n` slots and remember `n` more
pushed-back code points. -/
def unreadS : Nat → TState → TState
  | 0, t => t
  | n + 1, t => unreadS n { t with bufi := t.bufi + 3, bufn := t.bufn + 1 }

/-- Append a freshly read code point (with its position) to the circular
buffer — the tail of Go's `read`. -/
def pushBuf (t : TState) (ch : CP) (pos : Pos) : TState :=
  let i := t.bufi + 1
  { t with bufi := i, buf := t.buf.set i ch, bufpos := t.bufpos.set i pos }

/-- `read()`: return pushed-back code points if any; otherwise pull the next
rune from the reader, preprocessing `\f`, `\r`/`\r\n` and NUL (§3.3) and
tracking the position.  On end of input `eof` is returned and the position no
longer advances.  The `\r` case reads one rune of lookahead from the reader
and, when it is not `\n`, calls `unread(1)` — which rewinds the *buffer*, not
the reader, exactly as the Go code does. -/
def TState.read (t : TState) : CP × TState :=
  if t.bufn > 0 then
    let i := t.bufi + 1
    (t.buf.get i, { t with bufi := i, bufn := t.bufn - 1 })
  else
    let pos := t.pos
    match t.rd with
    | [] => (eofCP, pushBuf t eofCP pos)
    | c :: rest =>
      if c = '\r' then
        let t1 : TState :=
          match rest with
          | [] => { t with rd := [] }
          | c2 :: rest2 =>
            if c2 = '\n' then { t with rd := rest2 }
            else unreadS 1 { t with rd := rest2 }
        let pos' : Pos := ⟨0, pos.line + 1⟩
        (toCP '\n', pushBuf t1 (toCP '\n') pos')
      else
        let ch : CP :=
          if c = '\x0c' then toCP '\n'
          else if c = '\x00' then 0xFFFD
          else toCP c
        let pos' : Pos :=
          if ch = toCP '\n' then ⟨0, pos.line + 1⟩ else ⟨pos.char + 1, pos.line⟩
        (ch, pushBuf { t with rd := rest } ch pos')

/-- Record a tokenizer error (`t.Errors = append(t.Errors, ...)`). -/
def TState.addError (t : TState) (msg : String) (pos : Pos) : TState :=
  { t with errors := t.errors ++ [⟨msg, pos⟩] }

/-- The position `read` stamps for a code point `c` consumed at position `p`
(the position-tracking tail of `read`): a newline starts the next line at
`char 0`, anything else advances `char` by one. -/
def stepPos (c : Char) (p : Pos) : Pos :=
  if c = '\n' then ⟨0, p.line + 1⟩ else ⟨p.char + 1, p.line⟩

/-! ## Tokens (`Token`, `Tok` from the data model) -/

/-- The lexical token kind (`Tok` constants, `IdentToken` … `EOFToken`). -/
inductive Tok where
  | ident | function | atKeyword | hash | str | badString | url | badUrl
  | delim | number | percentage | dimension | unicodeRange
  | includeMatch | dashMatch | prefixMatch | suffixMatch | substringMatch
  | column | whitespace | cdo | cdc | colon | semicolon | comma
  | lbrack | rbrack | lparen | rparen | lbrace | rbrace | eof
deriving DecidableEq, Repr

/-- A lexical token (`Token` struct).  Field `endr` is the Go field `End`
(`end` is reserved in Lean).  Zero values mirror Go's. -/
structure Token where
  tok : Tok
  type : String := ""
  value : String := ""
  number : Rat := 0
  unit : String := ""
  start : Int := 0
  endr : Int := 0
  ending : CP := 0
  pos : Pos := ⟨0, 0⟩
deriving DecidableEq, Repr

/-! ## Formatting helpers used in error messages and by the printer -/

/-- The lowercase hex digit of a value below 16. -/
def hexDigitLower (n : Nat) : Char :=
  if n < 10 then Char.ofNat ('0'.toNat + n) else Char.ofNat ('a'.toNat + (n - 10))

/-- Hex digits with a structural fuel bound (so the kernel can evaluate it);
`hexChars` instantiates the fuel with the number itself, which always
suffices since the value shrinks 16-fold per digit. -/
def hexCharsAux : Nat → Nat → List Char
  | 0, _ => []
  | fuel + 1, n => if n = 0 then [] else hexCharsAux fuel (n / 16) ++ [hexDigitLower (n % 16)]

/-- Hex digits of `n`, most significant first (empty for `0`). -/
def hexChars (n : Nat) : List Char := hexCharsAux n n

/-- Lowercase hex rendering of a natural number. -/
def hexStr (n : Nat) : String := if n = 0 then "0" else ⟨hexChars n⟩

/-- `fmt` `%06x` on a Go `int`: lowercase hex, zero-padded to total width 6
(the sign counts towards the width for negative values). -/
def goFmt06x (n : Int) : String :=
  if n < 0 then
    let ds := (hexStr n.natAbs).data
    "-" ++ String.mk (List.replicate (5 - ds.length) '0') ++ String.mk ds
  else
    let ds := (hexStr n.toNat).data
    String.mk (List.replicate (6 - ds.length) '0') ++ String.mk ds

/-- `fmt` `%U` on a rune: `U+` and at least four uppercase hex digits. -/
def goFmtU (n : CP) : String :=
  let ds := (hexStr n.toNat).data.map Char.toUpper
  "U+" ++ String.mk (List.replicate (4 - ds.length) '0') ++ String.mk ds

/-- `strings.ToLower`, modelled on the ASCII range (`Char.toLower` lowers
exactly `A`–`Z`).  Go's version also folds non-ASCII letters; every value the
code compares (`"url"`, `"important"`) and every claim-relevant input is
ASCII, where the two agree. -/
def goToLower (s : String) : String := ⟨s.data.map Char.toLower⟩

/-! ## Tokenizer subroutines (`tokenizer.go`)

Each unbounded loop takes a fuel argument and yields `none` when it is
exhausted; otherwise these are line-by-line translations. -/

/-- `peekEscape`: is the current code point the start of a valid escape?
Reads one code point of lookahead and pushes it back. -/
def peekEscape (t : TState) : Bool × TState :=
  if t.curr ≠ toCP '\\' then (false, t)
  else
    let (next, t1) := t.read
    (next ≠ toCP '\n', unreadS 1 t1)

/-- Loop of `scanEscape`: up to five additional hex digits; a whitespace or
EOF terminator is consumed, any other non-hex code point is pushed back. -/
def scanEscapeLoop : Nat → String → TState → String × TState
  | 0, buf, t => (buf, t)
  | k + 1, buf, t =>
    let (next, t1) := t.read
    if next = eofCP ∨ isWhitespace next then (buf, t1)
    else if ¬ isHexDigit next then (buf, unreadS 1 t1)
    else scanEscapeLoop k (buf.push (cpChar next)) t1

/-- `scanEscape`: consume an escaped code point (after the backslash). -/
def scanEscape (t : TState) : CP × TState :=
  let (ch, t1) := t.read
  if isHexDigit ch then
    let (buf, t2) := scanEscapeLoop 5 (String.singleton (cpChar ch)) t1
    (goParseHexInt buf, t2)
  else if ch = eofCP then (0xFFFD, t1)
  else (ch, t1)

/-- `peekIdent`: do the code points starting at the current one form an
identifier?  (In the `-` case Go's `t.peekEscape()` is evaluated with the
hyphen as the current code point, so it is always false there.) -/
def peekIdent (t : TState) : Bool × TState :=
  if t.curr = toCP '-' then
    let (ch, t1) := t.read
    let t2 := unreadS 1 t1
    if isNameStart ch then (true, t2) else peekEscape t2
  else if isNameStart t.curr then (true, t)
  else if t.curr = toCP '\\' then peekEscape t
  else (false, t)

/-- Loop of `scanName`. -/
def scanNameLoop : Nat → String → TState → Option (String × TState)
  | 0, _, _ => none
  | f + 1, buf, t =>
    let (ch, t1) := t.read
    if isName ch then scanNameLoop f (buf.push (cpChar ch)) t1
    else
      let (pe, t2) := peekEscape t1
      if pe then
        let (r, t3) := scanEscape t2
        scanNameLoop f (buf.push (cpChar r)) t3
      else some (buf, unreadS 1 t2)

/-- `scanName`: the caller's current code point is the first name code point,
so the buffer index is first moved back one slot. -/
def scanName (fuel : Nat) (t : TState) : Option (String × TState) :=
  scanNameLoop fuel "" (unreadS 1 t)

/-- Loop of `scanWhitespace`. -/
def scanWhitespaceLoop : Nat → String → TState → Option (String × TState)
  | 0, _, _ => none
  | f + 1, buf, t =>
    let (ch, t1) := t.read
    if ch = eofCP then some (buf, t1)
    else if ¬ isWhitespace ch then some (buf, unreadS 1 t1)
    else scanWhitespaceLoop f (buf.push (cpChar ch)) t1

/-- `scanWhitespace`: current code point plus all following whitespace. -/
def scanWhitespace (fuel : Nat) (t : TState) : Option (Token × TState) :=
  let pos := t.pos
  match scanWhitespaceLoop fuel (String.singleton (cpChar t.curr)) t with
  | none => none
  | some (buf, t') => some ({ tok := .whitespace, value := buf, pos := pos }, t')

/-- Loop of `scanString` (§4.3.4). -/
def scanStringLoop : Nat → Pos → CP → String → TState → Option (Token × TState)
  | 0, _, _, _, _ => none
  | f + 1, pos, ending, buf, t =>
    let (ch, t1) := t.read
    if ch = eofCP ∨ ch = ending then
      some ({ tok := .str, value := buf, ending := ending, pos := pos }, t1)
    else if ch = toCP '\n' then
      some ({ tok := .badString, pos := pos }, unreadS 1 t1)
    else if ch = toCP '\\' then
      let (pe, t2) := peekEscape t1
      if pe then
        let (r, t3) := scanEscape t2
        scanStringLoop f pos ending (buf.push (cpChar r)) t3
      else
        let (next, t3) := t2.read
        if next = eofCP then scanStringLoop f pos ending buf t3
        else if next = toCP '\n' then scanStringLoop f pos ending (buf.push (cpChar next)) t3
        else scanStringLoop f pos ending buf t3
    else scanStringLoop f pos ending (buf.push (cpChar ch)) t1

/-- `scanString`: the current code point is the opening quote. -/
def scanString (fuel : Nat) (t : TState) : Option (Token × TState) :=
  scanStringLoop fuel t.pos t.curr "" t

/-- `scanBadURL`: recovery — consume to `)` or EOF, resolving escapes. -/
def scanBadURLLoop : Nat → TState → Option TState
  | 0, _ => none
  | f + 1, t =>
    let (ch, t1) := t.read
    if ch = toCP ')' ∨ ch = eofCP then some t1
    else
      let (pe, t2) := peekEscape t1
      if pe then
        let (_, t3) := scanEscape t2
        scanBadURLLoop f t3
      else scanBadURLLoop f t2

/-- Loop of `scanURL`'s unquoted branch. -/
def scanURLLoop : Nat → Pos → String → TState → Option (Token × TState)
  | 0, _, _, _ => none
  | f + 1, pos, buf, t =>
    let (ch, t1) := t.read
    if ch = toCP ')' ∨ ch = eofCP then
      some ({ tok := .url, value := buf, pos := pos }, t1)
    else if isWhitespace ch then
      match scanWhitespace f t1 with
      | none => none
      | some (_, t2) =>
        let (ch0, t3) := t2.read
        if ch0 = toCP ')' ∨ ch0 = eofCP then
          some ({ tok := .url, value := buf, pos := pos }, t3)
        else
          match scanBadURLLoop f t3 with
          | none => none
          | some t4 => some ({ tok := .badUrl, pos := pos }, t4)
    else if ch = toCP '"' ∨ ch = toCP '\'' ∨ ch = toCP '(' ∨ isNonPrintable ch then
      let t2 := t1.addError
        ("invalid url code point: " ++ String.singleton (cpChar ch) ++ " (" ++ goFmtU ch ++ ")") pos
      match scanBadURLLoop f t2 with
      | none => none
      | some t3 => some ({ tok := .badUrl, pos := pos }, t3)
    else if ch = toCP '\\' then
      let (pe, t2) := peekEscape t1
      if pe then
        let (r, t3) := scanEscape t2
        scanURLLoop f pos (buf.push (cpChar r)) t3
      else
        let t3 := t2.addError "unescaped \\ in url" t2.pos
        match scanBadURLLoop f t3 with
        | none => none
        | some t4 => some ({ tok := .badUrl, pos := pos }, t4)
    else scanURLLoop f pos (buf.push (cpChar ch)) t1

/-- `scanURL`: contents of a `url(` function. -/
def scanURL (fuel : Nat) (pos : Pos) (t : TState) : Option (Token × TState) :=
  -- Consume all whitespace after the "(".
  let (ch, t1) := t.read
  let skipped : Option TState :=
    if isWhitespace ch then (scanWhitespace fuel t1).map (·.2)
    else some (unreadS 1 t1)
  match skipped with
  | none => none
  | some t2 =>
    let (ch2, t3) := t2.read
    if ch2 = eofCP then some ({ tok := .url, pos := pos }, t3)
    else if ch2 = toCP '"' ∨ ch2 = toCP '\'' then
      match scanString fuel t3 with
      | none => none
      | some (stok, t4) =>
        if stok.tok = .badString then
          match scanBadURLLoop fuel t4 with
          | none => none
          | some t5 => some ({ tok := .badUrl, pos := pos }, t5)
        else
          let value := if stok.tok = .str then stok.value else ""
          let (ch3, t5) := t4.read
          let after : Option TState :=
            if isWhitespace ch3 then (scanWhitespace fuel t5).map (·.2) else some t5
          match after with
          | none => none
          | some t6 =>
            let t7 := unreadS 1 t6
            let (ch4, t8) := t7.read
            if ch4 ≠ toCP ')' ∧ ch4 ≠ eofCP then
              match scanBadURLLoop fuel t8 with
              | none => none
              | some t9 => some ({ tok := .badUrl, pos := pos }, t9)
            else some ({ tok := .url, value := value, pos := pos }, t8)
    else scanURLLoop fuel pos "" (unreadS 1 t3)

/-- `scanIdent`: an ident-like token (ident, function, url, bad-url).  When
the name lowercases to `url` but no `(` follows, the source unreads twice —
once inside the `url` check and once at the shared tail — a quirk kept here. -/
def scanIdent (fuel : Nat) (t : TState) : Option (Token × TState) :=
  let pos := t.pos
  match scanName fuel t with
  | none => none
  | some (v, t1) =>
    if goToLower v = "url" then
      let (ch, t2) := t1.read
      if ch = toCP '(' then scanURL fuel pos t2
      else some ({ tok := .ident, value := v, pos := pos }, unreadS 1 (unreadS 1 t2))
    else
      let (ch, t2) := t1.read
      if ch = toCP '(' then some ({ tok := .function, value := v, pos := pos }, t2)
      else some ({ tok := .ident, value := v, pos := pos }, unreadS 1 t2)

/-- Loop of `scanDigits`. -/
def scanDigitsLoop : Nat → String → TState → Option (String × TState)
  | 0, _, _ => none
  | f + 1, buf, t =>
    let (ch, t1) := t.read
    if isDigit ch then scanDigitsLoop f (buf.push (cpChar ch)) t1
    else some (buf, unreadS 1 t1)

/-- `scanDigits`: a contiguous run of digits. -/
def scanDigits (fuel : Nat) (t : TState) : Option (String × TState) :=
  scanDigitsLoop fuel "" t

/-- Fraction paragraph of `scanNumber`: "If next code points are a full stop
and digit then consume them"; the kind becomes `number`, otherwise it stays
`integer`. -/
def scanNumberFrac (fuel : Nat) (buf1 : String) (t3 : TState) :
    Option (String × String × TState) :=
  let (ch0, t4) := t3.read
  if ch0 = toCP '.' then
    let (ch1, t5) := t4.read
    if isDigit ch1 then do
      let (ds2, t5') ← scanDigits fuel t5
      pure (((buf1.push (cpChar ch0)).push (cpChar ch1)) ++ ds2, "number", t5')
    else pure (buf1, "integer", unreadS 2 t5)
  else pure (buf1, "integer", unreadS 1 t4)

/-- Exponent paragraph of `scanNumber`: "Consume scientific notation"; only a
complete exponent (`e`/`E`, optional sign, at least one digit) is consumed,
anything partial is unread in full. -/
def scanNumberExp (buf2 typ2 : String) (t6 : TState) : String × String × TState :=
  let (che0, t7) := t6.read
  if che0 = toCP 'e' ∨ che0 = toCP 'E' then
    let (che1, t8) := t7.read
    if che1 = toCP '+' ∨ che1 = toCP '-' then
      let (che2, t8') := t8.read
      if isDigit che2 then
        ((((buf2.push (cpChar che0)).push (cpChar che1)).push (cpChar che2)), "number", t8')
      else (buf2, typ2, unreadS 3 t8')
    else if isDigit che1 then
      (((buf2.push (cpChar che0)).push (cpChar che1)), "number", t8)
    else (buf2, typ2, unreadS 2 t8)
  else (buf2, typ2, unreadS 1 t7)

/-- `scanNumber` after the optional sign: digits, fraction, exponent. -/
def scanNumberRest (fuel : Nat) (buf0 : String) (t2 : TState) :
    Option (Rat × String × String × TState) := do
  let (ds, t3) ← scanDigits fuel t2
  let (buf2, typ2, t6) ← scanNumberFrac fuel (buf0 ++ ds) t3
  let (buf3, typ3, t9) := scanNumberExp buf2 typ2 t6
  pure (goParseFloat buf3, typ3, buf3, t9)

/-- `scanNumber`: sign, digits, optional fraction, optional (complete)
exponent; returns `(num, typ, repr, state)`. -/
def scanNumber (fuel : Nat) (t : TState) : Option (Rat × String × String × TState) :=
  let (ch, t1) := t.read
  if ch = toCP '+' ∨ ch = toCP '-' then scanNumberRest fuel (String.singleton (cpChar ch)) t1
  else scanNumberRest fuel "" (unreadS 1 t1)

/-- `scanNumeric`: number, then dimension unit / percent sign dispatch. -/
def scanNumeric (fuel : Nat) (pos : Pos) (t : TState) : Option (Token × TState) := do
  let (num, typ, repr, t1) ← scanNumber fuel t
  -- If the number is immediately followed by an identifier then scan dimension.
  let (_, t2) := t1.read
  let (pi, t3) := peekIdent t2
  if pi then do
    let (unit, t4) ← scanName fuel t3
    pure ({ tok := .dimension, type := typ, value := repr ++ unit, number := num,
            unit := unit, pos := pos }, t4)
  else
    let t4 := unreadS 1 t3
    let (ch, t5) := t4.read
    if ch = toCP '%' then
      pure ({ tok := .percentage, type := typ, value := repr ++ "%", number := num,
              pos := pos }, t5)
    else
      pure ({ tok := .number, type := typ, value := repr, number := num, pos := pos },
        unreadS 1 t5)

/-- `scanComment`: consume through `*/` (or EOF). -/
def scanCommentLoop : Nat → TState → Option TState
  | 0, _ => none
  | f + 1, t =>
    let (ch0, t1) := t.read
    if ch0 = eofCP then some t1
    else if ch0 = toCP '*' then
      let (ch1, t2) := t1.read
      if ch1 = toCP '/' then some t2
      else scanCommentLoop f (unreadS 1 t2)
    else scanCommentLoop f t1

/-- `scanHash`: hash token when a name code point or a valid escape follows,
else `Delim("#")`; kind `id` exactly when `peekIdent` holds. -/
def scanHash (fuel : Nat) (t : TState) : Option (Token × TState) :=
  let pos := t.pos
  let (ch, t1) := t.read
  -- `isName(ch) || t.peekEscape()` — short-circuit evaluation.
  let (cond, t2) := if isName ch then (true, t1) else peekEscape t1
  if cond then
    let (pi, t3) := peekIdent t2
    let typ := if pi then "id" else "unrestricted"
    match scanName fuel t3 with
    | none => none
    | some (v, t4) => some ({ tok := .hash, value := v, type := typ, pos := pos }, t4)
  else some ({ tok := .delim, value := "#", pos := pos }, unreadS 1 t2)

/-- Up-to-`k` hex digits (the bounded loops of `scanUnicodeRange`). -/
def readHexUpTo : Nat → String → TState → String × TState
  | 0, buf, t => (buf, t)
  | k + 1, buf, t =>
    let (ch, t1) := t.read
    if isHexDigit ch then readHexUpTo k (buf.push (cpChar ch)) t1
    else (buf, unreadS 1 t1)

/-- Up-to-`k` question marks. -/
def readQMUpTo : Nat → String → TState → String × TState
  | 0, buf, t => (buf, t)
  | k + 1, buf, t =>
    let (ch, t1) := t.read
    if ch = toCP '?' then readQMUpTo k (buf.push (cpChar ch)) t1
    else (buf, unreadS 1 t1)

/-- `strings.Replace(s, "?", c0, -1)` for a one-character pattern. -/
def replaceQ (c0 : Char) (s : String) : String :=
  ⟨s.data.map (fun c => if c = '?' then c0 else c)⟩

/-- `scanUnicodeRange`: up to six hex digits, question marks to a total of
six; a wildcard form expands `?` to `0` (start) and `F` (end); otherwise an
optional `-` plus up-to-six-hex-digit end; otherwise a single point.  All
loops are bounded, so no fuel is needed. -/
def scanUnicodeRange (t : TState) : Token × TState :=
  -- Move the position back one since the "U" is already consumed.
  let pos0 := t.pos
  let pos : Pos := ⟨pos0.char - 1, pos0.line⟩
  let (buf1, t1) := readHexUpTo 6 "" t
  let n := buf1.length
  let (buf2, t2) := readQMUpTo (6 - n) buf1 t1
  if buf2.length > n then
    let start64 := goParseHexInt (replaceQ '0' buf2)
    let end64 := goParseHexInt (replaceQ 'F' buf2)
    ({ tok := .unicodeRange, start := start64, endr := end64, pos := pos }, t2)
  else
    let start64 := goParseHexInt buf2
    let (ch1, t3) := t2.read
    let (ch2, t4) := t3.read
    if ch1 = toCP '-' ∧ isHexDigit ch2 then
      let t5 := unreadS 1 t4
      let (bufe, t6) := readHexUpTo 6 "" t5
      let end64 := goParseHexInt bufe
      ({ tok := .unicodeRange, start := start64, endr := end64, pos := pos }, t6)
    else
      ({ tok := .unicodeRange, start := start64, endr := start64, pos := pos }, unreadS 2 t4)

/-- The dispatcher `Tokenizer.scan` (`tokenizer.go:58`).  The only way the
outer `for` loop repeats is the comment branch, which here recurses on the
fuel.  (The package also contains a `Scanner` variant, `part_000`, sharing
every subroutine above; its dispatcher differs from this one only in the
`-` arm — it uses `peekNumber`/`peekIdent` before unreading — and in sending
a lone `+`/`.` to `peekNumber` instead of directly to `scanNumeric`.  No
input appearing in a claim reaches those arms, so this embedding serves for
both pipelines.) -/
def scan : Nat → TState → Option (Token × TState)
  | 0, _ => none
  | fuel + 1, t =>
    let (ch, t1) := t.read
    let pos := t1.pos
    if ch = eofCP then some ({ tok := .eof, pos := pos }, t1)
    else if isWhitespace ch then scanWhitespace (fuel + 1) t1
    else if ch = toCP '"' ∨ ch = toCP '\'' then scanString (fuel + 1) t1
    else if ch = toCP '#' then scanHash (fuel + 1) t1
    else if ch = toCP '$' then
      let (next, t2) := t1.read
      if next = toCP '=' then some ({ tok := .suffixMatch, pos := pos }, t2)
      else some ({ tok := .delim, value := String.singleton (cpChar ch), pos := pos }, unreadS 1 t2)
    else if ch = toCP '*' then
      let (next, t2) := t1.read
      if next = toCP '=' then some ({ tok := .substringMatch, pos := pos }, t2)
      else some ({ tok := .delim, value := String.singleton (cpChar ch), pos := pos }, unreadS 1 t2)
    else if ch = toCP '^' then
      let (next, t2) := t1.read
      if next = toCP '=' then some ({ tok := .prefixMatch, pos := pos }, t2)
      else some ({ tok := .delim, value := String.singleton (cpChar ch), pos := pos }, unreadS 1 t2)
    else if ch = toCP '~' then
      let (next, t2) := t1.read
      if next = toCP '=' then some ({ tok := .includeMatch, pos := pos }, t2)
      else some ({ tok := .delim, value := String.singleton (cpChar ch), pos := pos }, unreadS 1 t2)
    else if ch = toCP ',' then some ({ tok := .comma, pos := pos }, t1)
    else if ch = toCP '-' then
      -- Scan the next two code points and unread back (by three, as in
      -- the source, which leaves the code point before the hyphen current).
      let (ch1, t2) := t1.read
      let (ch2, t3) := t2.read
      let t4 := unreadS 3 t3
      if isDigit ch1 ∨ ch1 = toCP '.' then scanNumeric (fuel + 1) pos t4
      else
        let (pi, t5) := peekIdent t4
        if pi then scanIdent (fuel + 1) t5
        else if ch1 = toCP '-' ∧ ch2 = toCP '>' then some ({ tok := .cdc, pos := pos }, t5)
        else some ({ tok := .delim, value := "-", pos := pos }, t5)
    else if ch = toCP '/' then
      let (ch1, t2) := t1.read
      if ch1 = toCP '*' then
        match scanCommentLoop (fuel + 1) t2 with
        | none => none
        | some t3 => scan fuel t3
      else some ({ tok := .delim, value := "/", pos := pos }, unreadS 1 t2)
    else if ch = toCP ':' then some ({ tok := .colon, pos := pos }, t1)
    else if ch = toCP ';' then some ({ tok := .semicolon, pos := pos }, t1)
    else if ch = toCP '<' then
      let (ch0, t2) := t1.read
      if ch0 = toCP '!' then
        let (ch1, t3) := t2.read
        if ch1 = toCP '-' then
          let (ch2, t4) := t3.read
          if ch2 = toCP '-' then some ({ tok := .cdo, pos := pos }, t4)
          else some ({ tok := .delim, value := "<", pos := pos }, unreadS 3 t4)
        else some ({ tok := .delim, value := "<", pos := pos }, unreadS 2 t3)
      else some ({ tok := .delim, value := "<", pos := pos }, unreadS 1 t2)
    else if ch = toCP '@' then
      let (_, t2) := t1.read
      let (pi, t3) := peekIdent t2
      if pi then
        match scanName (fuel + 1) t3 with
        | none => none
        | some (v, t4) => some ({ tok := .atKeyword, value := v, pos := pos }, t4)
      else some ({ tok := .delim, value := "@", pos := pos }, t3)
    else if ch = toCP '(' then some ({ tok := .lparen, pos := pos }, t1)
    else if ch = toCP ')' then some ({ tok := .rparen, pos := pos }, t1)
    else if ch = toCP '[' then some ({ tok := .lbrack, pos := pos }, t1)
    else if ch = toCP ']' then some ({ tok := .rbrack, pos := pos }, t1)
    else if ch = toCP '{' then some ({ tok := .lbrace, pos := pos }, t1)
    else if ch = toCP '}' then some ({ tok := .rbrace, pos := pos }, t1)
    else if ch = toCP '\\' then
      let (pe, t2) := peekEscape t1
      if pe then scanIdent (fuel + 1) t2
      else
        let t3 := t2.addError "unescaped \\" t2.pos
        some ({ tok := .delim, value := "\\", pos := pos }, t3)
    else if ch = toCP '+' ∨ ch = toCP '.' ∨ isDigit ch then
      scanNumeric (fuel + 1) pos (unreadS 1 t1)
    else if ch = toCP 'u' ∨ ch = toCP 'U' then
      let (ch1, t2) := t1.read
      let (ch2, t3) := t2.read
      if ch1 = toCP '+' ∧ (isHexDigit ch2 ∨ ch2 = toCP '?') then
        some (scanUnicodeRange (unreadS 1 t3))
      else scanIdent (fuel + 1) (unreadS 2 t3)
    else if isNameStart ch then scanIdent (fuel + 1) t1
    else if ch = toCP '|' then
      let (ch1, t2) := t1.read
      if ch1 = toCP '=' then some ({ tok := .dashMatch, pos := pos }, t2)
      else if ch1 = toCP '|' then some ({ tok := .column, pos := pos }, t2)
      else some ({ tok := .delim, value := String.singleton (cpChar ch), pos := pos }, unreadS 1 t2)
    else some ({ tok := .delim, value := String.singleton (cpChar ch), pos := pos }, t1)

/-- Collect the token stream up to and including the first EOF token. -/
def tokenizeLoop : Nat → List Token → TState → Option (List Token)
  | 0, _, _ => none
  | f + 1, acc, t =>
    match scan (f + 1) t with
    | none => none
    | some (tok, t') =>
      if tok.tok = .eof then some (acc ++ [tok])
      else tokenizeLoop f (acc ++ [tok]) t'

/-- The token sequence of an input, final EOF token included. -/
def tokenize (fuel : Nat) (l : List Char) : Option (List Token) :=
  tokenizeLoop fuel [] (mkTState l)

/-- Token sequence of a string literal. -/
def tokenizeStr (fuel : Nat) (s : String) : Option (List Token) :=
  tokenize fuel s.data

/-! ## Component values and the AST (`part_003` data model)

`ComponentValue` is a token, a simple block, or a function.  The `Pos` fields
of `SimpleBlock`, `Function`, `AtRule`, `QualifiedRule` and `Declaration` are
never assigned by this parser (they keep Go's zero value), so they are not
carried here; `Position` on a block or function therefore returns `⟨0, 0⟩`. -/

/-- A component value: `*Token`, `*SimpleBlock{Token, Values}` or
`*Function{Name, Values}`. -/
inductive CV where
  | tok (t : Token)
  | block (btok : Token) (values : List CV)
  | fn (name : String) (values : List CV)

/-- `Token.Tok` printer branch of `Printer.Fprint` (`printer.go:95`). -/
def printToken (t : Token) : String :=
  match t.tok with
  | .ident => t.value
  | .function => t.value ++ "("
  | .atKeyword => "@" ++ t.value
  | .hash => "#" ++ t.value
  | .str => String.singleton (cpChar t.ending) ++ t.value ++ String.singleton (cpChar t.ending)
  | .badString => "''"
  | .url => "url(" ++ t.value ++ ")"
  | .badUrl => "url()"
  | .delim => t.value
  | .number => t.value
  | .percentage => t.value
  | .dimension => t.value
  | .whitespace => t.value
  | .unicodeRange => "U+" ++ goFmt06x t.start ++ "-U+" ++ goFmt06x t.endr
  | .includeMatch => "~="
  | .dashMatch => "|="
  | .prefixMatch => "^="
  | .suffixMatch => "$="
  | .substringMatch => "*="
  | .column => "||"
  | .cdo => "<!--"
  | .cdc => "-->"
  | .colon => ":"
  | .semicolon => ";"
  | .comma => ","
  | .lbrack => "["
  | .rbrack => "]"
  | .lparen => "("
  | .rparen => ")"
  | .lbrace => "\x7b"
  | .rbrace => "\x7d"
  | .eof => "EOF"

/-- Opening bracket a `SimpleBlock` prints (nothing for a non-bracket token). -/
def blockOpen (bt : Token) : String :=
  match bt.tok with
  | .lbrace => "\x7b" | .lbrack => "[" | .lparen => "(" | _ => ""

/-- Closing bracket a `SimpleBlock` prints. -/
def blockClose (bt : Token) : String :=
  match bt.tok with
  | .lbrace => "\x7d" | .lbrack => "]" | .lparen => ")" | _ => ""

mutual

/-- `Printer.Fprint` on a component value. -/
def printCV : CV → String
  | .tok t => printToken t
  | .block bt vals => blockOpen bt ++ printCVs vals ++ blockClose bt
  | .fn name vals => name ++ "(" ++ printCVs vals ++ ")"

/-- `Printer.Fprint` on `ComponentValues` (concatenation). -/
def printCVs : List CV → String
  | [] => ""
  | v :: rest => printCV v ++ printCVs rest

end

/-- `print` applied to each token of a stream, concatenated. -/
def printTokens (l : List Token) : String :=
  (l.map printToken).foldl (· ++ ·) ""

/-- `Position(n)` on a component value; a block or function carries the
parser's zero position. -/
def PositionCV : CV → Pos
  | .tok t => t.pos
  | .block _ _ => ⟨0, 0⟩
  | .fn _ _ => ⟨0, 0⟩

/-- `Position` applied to a possibly-nil node (`Position(nil) = Pos{}`). -/
def PositionO : Option CV → Pos
  | some v => PositionCV v
  | none => ⟨0, 0⟩

/-- `print` applied to a possibly-nil node (`print(nil) = ""`). -/
def printO : Option CV → String
  | some v => printCV v
  | none => ""

/-- `AtRule{Name, Prelude, Block}`; the block is its opening token plus
contents. -/
structure AtRule where
  name : String
  prelude : List CV := []
  block : Option (Token × List CV) := none

/-- `QualifiedRule{Prelude, Block}`. -/
structure QualifiedRule where
  prelude : List CV := []
  block : Option (Token × List CV) := none

/-- `Rule`: at-rule or qualified rule. -/
inductive Rule where
  | atRule (r : AtRule)
  | qualified (r : QualifiedRule)

/-- `Declaration{Name, Values, Important}`. -/
structure Declaration where
  name : String
  values : List CV := []
  important : Bool := false

/-! ## Component-value scanners

The parser reads from a `componentValueScanner` (`Current`, `Scan`,
`Unscan`).  Two realizations exist in the source: the tokenizer behind a thin
wrapper, and `componentValueList`, an in-memory replayer. -/

/-- The operations of `componentValueScanner`.  `currentv` is `Option`-valued:
`none` models Go's nil `tokbuf` / out-of-range index panic. -/
class CVScanner (σ : Type) where
  scanv : σ → CV × σ
  currentv : σ → Option CV
  unscanv : σ → σ

/-- The tokenizer-backed scanner: a pre-computed token stream plus the
one-token pushback buffer (`tokbuf`, `tokbufn`).  After the final EOF token
the Go tokenizer keeps producing equal EOF tokens, so the last element stays
pending forever. -/
structure TokSc where
  pending : List Token
  tokbuf : Option Token := none
  tokbufn : Bool := false

/-- `Scan` on the tokenizer-backed scanner. -/
def TokSc.scanT (s : TokSc) : CV × TokSc :=
  if s.tokbufn then (CV.tok (s.tokbuf.getD { tok := .eof }), { s with tokbufn := false })
  else
    match s.pending with
    | [] => (CV.tok { tok := .eof }, s)  -- unreachable: token streams end with EOF
    | [t] => (CV.tok t, { s with tokbuf := some t })
    | t :: rest => (CV.tok t, { pending := rest, tokbuf := some t, tokbufn := false })

instance : CVScanner TokSc where
  scanv := TokSc.scanT
  currentv s := s.tokbuf.map CV.tok
  unscanv s := { s with tokbufn := true }

/-- `componentValueList`: replays a fixed list; `i` starts at `-1`. -/
structure CVList where
  i : Int
  values : List CV

/-- Fresh replayer (`newComponentValueList`). -/
def mkCVList (a : List CV) : CVList := ⟨-1, a⟩

/-- `componentValueList.Current`: an EOF token past the end, the element at
`i` inside, and an index panic (`none`) before the first `Scan`. -/
def CVList.currentO (l : CVList) : Option CV :=
  if l.i ≥ (l.values.length : Int) then some (CV.tok { tok := .eof })
  else if 0 ≤ l.i then l.values.get? l.i.toNat
  else none

/-- `componentValueList.Scan`. -/
def CVList.scanL (l : CVList) : CV × CVList :=
  let l' := if l.i < (l.values.length : Int) then { l with i := l.i + 1 } else l
  (l'.currentO.getD (CV.tok { tok := .eof }), l')

instance : CVScanner CVList where
  scanv := CVList.scanL
  currentv := CVList.currentO
  unscanv l := if l.i > -1 then { l with i := l.i - 1 } else l

/-! ## Parser algorithms (`parser.go`, §5.4)

Fueled; `none` models either fuel exhaustion or a Go run-time panic from a
failing `.(*Token)` type assertion. -/

open CVScanner in
mutual

/-- `consumeComponentValue` (§5.4.6). -/
def consumeComponentValue {σ : Type} [CVScanner σ] : Nat → σ → Option (CV × σ)
  | 0, _ => none
  | f + 1, s =>
    let (v, s1) := scanv s
    match v with
    | .tok t =>
      if t.tok = .lbrace ∨ t.tok = .lbrack ∨ t.tok = .lparen then
        -- consumeSimpleBlock: `b.Token = s.Current().(*Token)`.
        match currentv s1 with
        | some (.tok bt) =>
          match consumeSimpleBlockLoop f bt [] s1 with
          | none => none
          | some (bt', vals, s2) => some (CV.block bt' vals, s2)
        | _ => none
      else if t.tok = .function then
        -- consumeFunction: `f.Name = s.Current().(*Token).Value`.
        match currentv s1 with
        | some (.tok ft) =>
          match consumeFunctionLoop f ft.value [] s1 with
          | none => none
          | some (name, vals, s2) => some (CV.fn name vals, s2)
        | _ => none
      else some (v, s1)
    | _ => some (v, s1)

/-- Loop of `consumeSimpleBlock` (§5.4.7): EOF or the mirror of the opening
token ends the block; anything else is unscanned and consumed as a component
value. -/
def consumeSimpleBlockLoop {σ : Type} [CVScanner σ] :
    Nat → Token → List CV → σ → Option (Token × List CV × σ)
  | 0, _, _, _ => none
  | f + 1, bt, vals, s =>
    let (v, s1) := scanv s
    let ends : Bool :=
      match v with
      | .tok t =>
        t.tok = .eof ∨ (t.tok = .rbrack ∧ bt.tok = .lbrack) ∨
          (t.tok = .rbrace ∧ bt.tok = .lbrace) ∨ (t.tok = .rparen ∧ bt.tok = .lparen)
      | _ => false
    if ends then some (bt, vals, s1)
    else
      match consumeComponentValue f (unscanv s1) with
      | none => none
      | some (cv, s2) => consumeSimpleBlockLoop f bt (vals ++ [cv]) s2

/-- Loop of `consumeFunction` (§5.4.8): EOF or `)` ends the argument list. -/
def consumeFunctionLoop {σ : Type} [CVScanner σ] :
    Nat → String → List CV → σ → Option (String × List CV × σ)
  | 0, _, _, _ => none
  | f + 1, name, vals, s =>
    let (v, s1) := scanv s
    let ends : Bool :=
      match v with
      | .tok t => t.tok = .eof ∨ t.tok = .rparen
      | _ => false
    if ends then some (name, vals, s1)
    else
      match consumeComponentValue f (unscanv s1) with
      | none => none
      | some (cv, s2) => consumeFunctionLoop f name (vals ++ [cv]) s2

end

open CVScanner in
/-- `consumeSimpleBlock` (§5.4.7): the block's token is
`s.Current().(*Token)` — a panic (`none`) when the current component value is
a materialized block or function. -/
def consumeSimpleBlock {σ : Type} [CVScanner σ] (fuel : Nat) (s : σ) :
    Option (Token × List CV × σ) :=
  match currentv s with
  | some (.tok bt) => consumeSimpleBlockLoop fuel bt [] s
  | _ => none

open CVScanner in
/-- `skipWhitespace`: skip contiguous whitespace tokens; the Go loop only
stops on a non-whitespace `*Token`, so a materialized block or function is
skipped as well. -/
def skipWhitespace {σ : Type} [CVScanner σ] : Nat → σ → Option σ
  | 0, _ => none
  | f + 1, s =>
    let (v, s1) := scanv s
    match v with
    | .tok t => if t.tok ≠ .whitespace then some (unscanv s1) else skipWhitespace f s1
    | _ => skipWhitespace f s1

open CVScanner in
/-- Loop of `consumeAtRule` (§5.4.2): `Semicolon`/`Eof` end the rule with no
block; an `LBrace` token — or a materialized `SimpleBlock` whose opening
token is `LBrace` — hands over to `consumeSimpleBlock` and ends the rule;
anything else is unscanned and consumed into the prelude. -/
def consumeAtRuleLoop {σ : Type} [CVScanner σ] :
    Nat → String → List CV → σ → Option (AtRule × σ)
  | 0, _, _, _ => none
  | f + 1, name, prelude, s =>
    let (v, s1) := scanv s
    let isEnd : Bool :=
      match v with
      | .tok t => t.tok = .semicolon ∨ t.tok = .eof
      | _ => false
    let isBlock : Bool :=
      match v with
      | .tok t => t.tok = .lbrace
      | .block bt _ => bt.tok = .lbrace
      | _ => false
    if isEnd then some ({ name := name, prelude := prelude, block := none }, s1)
    else if isBlock then
      match consumeSimpleBlock f s1 with
      | none => none
      | some (bt, vals, s2) =>
        some ({ name := name, prelude := prelude, block := some (bt, vals) }, s2)
    else
      match consumeComponentValue f (unscanv s1) with
      | none => none
      | some (cv, s2) => consumeAtRuleLoop f name (prelude ++ [cv]) s2

open CVScanner in
/-- `consumeAtRule` (§5.4.2): the name is `s.Current().(*Token).Value`. -/
def consumeAtRule {σ : Type} [CVScanner σ] (fuel : Nat) (s : σ) : Option (AtRule × σ) :=
  match currentv s with
  | some (.tok t) => consumeAtRuleLoop fuel t.value [] s
  | _ => none

open CVScanner in
/-- Loop of `consumeQualifiedRule` (§5.4.3): EOF records `unexpected EOF` and
returns no rule; a brace token or brace block becomes the rule's block. -/
def consumeQualifiedRuleLoop {σ : Type} [CVScanner σ] :
    Nat → List CV → List Error → σ → Option (Option QualifiedRule × σ × List Error)
  | 0, _, _, _ => none
  | f + 1, prelude, errs, s =>
    let (v, s1) := scanv s
    match v with
    | .tok t =>
      if t.tok = .eof then some (none, s1, errs ++ [⟨"unexpected EOF", t.pos⟩])
      else if t.tok = .lbrace then
        match consumeSimpleBlock f s1 with
        | none => none
        | some (bt, vals, s2) =>
          some (some { prelude := prelude, block := some (bt, vals) }, s2, errs)
      else
        match consumeComponentValue f (unscanv s1) with
        | none => none
        | some (cv, s2) => consumeQualifiedRuleLoop f (prelude ++ [cv]) errs s2
    | .block bt _ =>
      if bt.tok = .lbrace then
        match consumeSimpleBlock f s1 with
        | none => none
        | some (bt', vals, s2) =>
          some (some { prelude := prelude, block := some (bt', vals) }, s2, errs)
      else
        match consumeComponentValue f (unscanv s1) with
        | none => none
        | some (cv, s2) => consumeQualifiedRuleLoop f (prelude ++ [cv]) errs s2
    | _ =>
      match consumeComponentValue f (unscanv s1) with
      | none => none
      | some (cv, s2) => consumeQualifiedRuleLoop f (prelude ++ [cv]) errs s2

/-- `consumeQualifiedRule` (§5.4.3). -/
def consumeQualifiedRule {σ : Type} [CVScanner σ] (fuel : Nat) (s : σ) (errs : List Error) :
    Option (Option QualifiedRule × σ × List Error) :=
  consumeQualifiedRuleLoop fuel [] errs s

/-- `nonwhitespace`: the component values that are not whitespace tokens. -/
def nonwhitespace (a : List CV) : List CV :=
  a.filter (fun v => match v with | .tok t => t.tok ≠ .whitespace | _ => true)

/-- Does this component value hold exactly this token?  Stands in for Go's
interface (pointer) comparison `v == a[len(a)-2]`; the two agree whenever the
list does not contain an earlier token with identical field values — tokens
from a real scan carry distinct positions. -/
def cvIsToken (v : CV) (t : Token) : Bool :=
  match v with
  | .tok t' => t' = t
  | _ => false

/-- `cleanImportantFlag` (`parser.go:315`): if the last two non-whitespace
values are `Delim("!")` then an `Ident` lowercasing to `important`, report
`Important = true`; the trim step keeps `values[i:]` from the first element
equal to that `!` token (exactly as the source does). -/
def cleanImportantFlag (values : List CV) : List CV × Bool :=
  let a := nonwhitespace values
  if a.length < 2 then (values, false)
  else
    match a.get? (a.length - 2), a.get? (a.length - 1) with
    | some (.tok t1), some (.tok t2) =>
      if t1.tok = .delim ∧ t1.value = "!" ∧ t2.tok = .ident ∧
          goToLower t2.value = "important" then
        match values.findIdx? (fun v => cvIsToken v t1) with
        | some i => (values.drop i, true)
        | none => (values, true)
      else (values, false)
    | _, _ => (values, false)

open CVScanner in
/-- The declaration-value loop of `consumeDeclaration`: collect raw scanned
values up to the EOF token. -/
def consumeDeclValuesLoop {σ : Type} [CVScanner σ] : Nat → List CV → σ → Option (List CV × σ)
  | 0, _, _ => none
  | f + 1, acc, s =>
    let (v, s1) := scanv s
    match v with
    | .tok t => if t.tok = .eof then some (acc, s1) else consumeDeclValuesLoop f (acc ++ [v]) s1
    | _ => consumeDeclValuesLoop f (acc ++ [v]) s1

open CVScanner in
/-- `consumeDeclaration` (§5.4.5): leading ident (via `.(*Token)`), optional
whitespace, a colon (else `expected colon, got X`), the value list to EOF,
then the `!important` cleanup. -/
def consumeDeclaration {σ : Type} [CVScanner σ] (fuel : Nat) (s : σ) (errs : List Error) :
    Option (Option Declaration × σ × List Error) := do
  let (v0, s1) := scanv s
  match v0 with
  | .tok nameTok => do
    let s2 ← skipWhitespace fuel s1
    let (v1, s3) := scanv s2
    match v1 with
    | .tok colonTok =>
      if colonTok.tok ≠ .colon then
        some (none, s3, errs ++
          [⟨"expected colon, got " ++ printO (currentv s3), PositionO (currentv s3)⟩])
      else do
        let (vals, s4) ← consumeDeclValuesLoop fuel [] s3
        let (vals', imp) := cleanImportantFlag vals
        some (some { name := nameTok.value, values := vals', important := imp }, s4, errs)
    | _ => none  -- `.(*Token)` panic
  | _ => none    -- `.(*Token)` panic

open CVScanner in
/-- `ParseRule` (`parser.go:28`): skip whitespace, dispatch on EOF /
at-keyword / qualified rule, skip trailing whitespace, and require EOF
(`expected EOF, got X` at the residue's recorded position otherwise). -/
def ParseRule (toks : List Token) (fuel : Nat) : Option (Option Rule × List Error) := do
  let s0 : TokSc := { pending := toks }
  let s1 ← skipWhitespace fuel s0
  let (v, s2) := scanv s1
  match v with
  | .tok t =>
    if t.tok = .eof then
      some (none, [⟨"unexpected EOF", PositionO (currentv s2)⟩])
    else do
      let (r, s3, errs) ←
        if t.tok = .atKeyword then do
          let (ar, s3) ← consumeAtRule fuel s2
          pure ((some (Rule.atRule ar) : Option Rule), s3, ([] : List Error))
        else do
          let (qr, s3, errs) ← consumeQualifiedRule fuel (unscanv s2) []
          pure (qr.map Rule.qualified, s3, errs)
      let s4 ← skipWhitespace fuel s3
      let (v2, s5) := scanv s4
      match v2 with
      | .tok t2 =>
        if t2.tok ≠ .eof then
          some (none, errs ++
            [⟨"expected EOF, got " ++ printO (currentv s5), PositionO (currentv s5)⟩])
        else some (r, errs)
      | _ => none  -- unreachable: the tokenizer-backed scanner yields tokens
  | _ => none      -- unreachable likewise

/-- `ParseRule` from raw input text. -/
def ParseRuleStr (fuel : Nat) (l : List Char) : Option (Option Rule × List Error) := do
  let toks ← tokenize fuel l
  ParseRule toks fuel

/-- Loop of `ParseComponentValues` (`parser.go:118`): consume component
values until one is an EOF token. -/
def ParseComponentValuesLoop {σ : Type} [CVScanner σ] : Nat → List CV → σ → Option (List CV × σ)
  | 0, _, _ => none
  | f + 1, acc, s =>
    match consumeComponentValue (f + 1) s with
    | none => none
    | some (v, s1) =>
      match v with
      | .tok t =>
        if t.tok = .eof then some (acc, s1)
        else ParseComponentValuesLoop f (acc ++ [v]) s1
      | _ => ParseComponentValuesLoop f (acc ++ [v]) s1

/-- `ParseComponentValues`: the accumulated list, always paired with the
literal `nil` error of the source (`return a, nil`). -/
def ParseComponentValues (toks : List Token) (fuel : Nat) :
    Option (List CV × Option (List Error)) :=
  (ParseComponentValuesLoop fuel [] ({ pending := toks } : TokSc)).map (fun r => (r.1, none))

/-! ## Specification-side predicates used by the claim statements -/

/-- Normalize the attributes the round-trip claim discounts: the value of a
`Whitespace` token and the (lost) textual form of `BadString`/`BadUrl`;
positions are discounted everywhere, making the comparison as generous to the
claim as possible. -/
def eraseLossy (t : Token) : Token :=
  if t.tok = .whitespace ∨ t.tok = .badString ∨ t.tok = .badUrl then { tok := t.tok }
  else { t with pos := ⟨0, 0⟩ }

/-- Token sequences equal modulo whitespace values and bad-token forms
(and positions), the equivalence of the round-trip claim. -/
def tokensEqMod (a b : List Token) : Prop := a.map eraseLossy = b.map eraseLossy

instance (a b : List Token) : Decidable (tokensEqMod a b) :=
  inferInstanceAs (Decidable (a.map eraseLossy = b.map eraseLossy))

/-- Not a fraction or exponent marker: not `.`, `e`, `E`. -/
def ndChar (c : Char) : Bool := !(c == '.' || c == 'e' || c == 'E')

/-- `repr` contains no fractional or exponent component: no `.`, `e`, `E`. -/
def noDotE (s : String) : Bool := s.data.all ndChar

/-- The `scanUnicodeRange` input shape that takes the explicit
start-dash-end branch: no question mark follows the leading hex digits, and
the next two code points are `-` and a hex digit.  (Computed with the same
bounded readers the scanner uses.) -/
def dashEndShape (t : TState) : Bool :=
  let (buf1, t1) := readHexUpTo 6 "" t
  let (buf2, t2) := readQMUpTo (6 - buf1.length) buf1 t1
  if buf2.length > buf1.length then false
  else
    let (ch1, t3) := t2.read
    let (ch2, _) := t3.read
    if ch1 = toCP '-' ∧ isHexDigit ch2 then true else false

/-- The input contains no carriage return and no form feed: on such inputs
the §3.3 preprocessing reduces to the NUL replacement (a preprocessed CSS
stream never contains `\r` or `\f`). -/
def crffFree (l : List Char) : Prop := ∀ c ∈ l, c ≠ '\r' ∧ c ≠ '\x0c'

/-- The preprocessing that remains on a CR/FF-free stream: NUL → U+FFFD. -/
def preprocessNul (l : List Char) : List Char :=
  l.map (fun c => if c = '\x00' then '�' else c)

/-- Claim condition for `#`: the next code point is a name code point or
begins a valid escape (a backslash not followed by a newline; a backslash at
EOF also starts a — degenerate — escape). -/
def hashFollows (l : List Char) : Bool :=
  match l with
  | [] => false
  | c :: rest =>
    isName (toCP c) ||
      (c = '\\' && (match rest with | [] => true | c2 :: _ => c2 ≠ '\n'))

/-- Claim condition for the hash kind: the code points after `#` form an
identifier, in the sense of the source's `peekIdent` (after a hyphen only a
name-start code point counts — `peekIdent`'s escape check there looks at the
hyphen itself and never fires). -/
def identFollows (l : List Char) : Bool :=
  match l with
  | [] => false
  | c :: rest =>
    if c = '-' then (match rest with | [] => false | c2 :: _ => isNameStart (toCP c2))
    else
      isNameStart (toCP c) ||
        (c = '\\' && (match rest with | [] => true | c2 :: _ => c2 ≠ '\n'))

/-! # Helper lemmas -/

theorem data_push (s : String) (c : Char) : (s.push c).data = s.data ++ [c] := rfl

theorem data_append (a b : String) : (a ++ b).data = a.data ++ b.data := rfl

theorem hexDigitVal_hexDigitLower (m : Nat) (h : m < 16) :
    hexDigitVal (hexDigitLower m) = m := by
  interval_cases m <;> rfl

theorem isHexDigitChar_hexDigitLower (m : Nat) (h : m < 16) :
    isHexDigitChar (hexDigitLower m) = true := by
  interval_cases m <;> rfl

theorem hexFold_from (l : List Char) (acc : Nat) :
    l.foldl (fun a c => 16 * a + hexDigitVal c) acc = acc * 16 ^ l.length + hexFold l := by
  induction l generalizing acc with
  | nil => simp [hexFold]
  | cons c r ih =>
    have h2 := ih (16 * acc + hexDigitVal c)
    have h3 := ih (16 * 0 + hexDigitVal c)
    simp only [List.foldl_cons, List.length_cons, hexFold] at *
    rw [h2, h3]
    ring

theorem hexFold_append (a b : List Char) :
    hexFold (a ++ b) = hexFold a * 16 ^ b.length + hexFold b := by
  simp only [hexFold, List.foldl_append]
  rw [hexFold_from b (List.foldl _ 0 a)]
  rfl

theorem hexFold_hexCharsAux (fuel : Nat) :
    ∀ n, n ≤ fuel → hexFold (hexCharsAux fuel n) = n := by
  induction fuel with
  | zero =>
    intro n hn
    have : n = 0 := by omega
    subst this
    rfl
  | succ fuel ih =>
    intro n hn
    rw [hexCharsAux]
    split
    · simp_all [hexFold]
    · rename_i h
      have hlt : n / 16 < n := Nat.div_lt_self (by omega) (by norm_num)
      rw [hexFold_append, ih (n / 16) (by omega)]
      have hm : hexDigitVal (hexDigitLower (n % 16)) = n % 16 :=
        hexDigitVal_hexDigitLower _ (Nat.mod_lt _ (by norm_num))
      simp [hexFold, hm]
      omega

theorem hexFold_hexChars (n : Nat) : hexFold (hexChars n) = n :=
  hexFold_hexCharsAux n n le_rfl

theorem hexChars_all_hex (n : Nat) : (hexChars n).all isHexDigitChar = true := by
  suffices h : ∀ fuel m, m ≤ fuel → (hexCharsAux fuel m).all isHexDigitChar = true from
    h n n le_rfl
  intro fuel
  induction fuel with
  | zero =>
    intro m hm
    have : m = 0 := by omega
    subst this
    rfl
  | succ fuel ih =>
    intro m hm
    rw [hexCharsAux]
    split
    · rfl
    · rename_i h
      have hlt : m / 16 < m := Nat.div_lt_self (by omega) (by norm_num)
      rw [List.all_append, ih (m / 16) (by omega)]
      simp [isHexDigitChar_hexDigitLower _ (Nat.mod_lt _ (by norm_num))]

theorem hexFold_hexStr (n : Nat) : hexFold (hexStr n).data = n := by
  unfold hexStr
  split
  · simp_all [hexFold, hexDigitVal]
  · exact hexFold_hexChars n

theorem hexStr_all_hex (n : Nat) : (hexStr n).data.all isHexDigitChar = true := by
  unfold hexStr
  split
  · rfl
  · exact hexChars_all_hex n

theorem hexStr_ne_nil (n : Nat) : (hexStr n).data ≠ [] := by
  unfold hexStr
  split
  · simp
  · rename_i h
    show hexCharsAux n n ≠ []
    match n, h with
    | n + 1, _ => rw [hexCharsAux]; simp

theorem hexFold_replicate_zero (k : Nat) : hexFold (List.replicate k '0') = 0 := by
  induction k with
  | zero => rfl
  | succ k ih =>
    rw [List.replicate_succ]
    simpa [hexFold, List.foldl_cons, hexDigitVal] using ih

theorem goParseHexInt_pad (k : Nat) (l : List Char) (hne : l ≠ [])
    (hhex : l.all isHexDigitChar = true) :
    goParseHexInt ⟨List.replicate k '0' ++ l⟩ = (hexFold l : Int) := by
  unfold goParseHexInt
  rw [if_pos]
  · rw [hexFold_append, hexFold_replicate_zero]
    simp
  · constructor
    · simp [hne]
    · simp only [List.all_append, hhex, Bool.and_true]
      have h0 : ∀ c ∈ List.replicate k '0', isHexDigitChar c = true := by
        intro c hc
        rw [List.eq_of_mem_replicate hc]
        rfl
      exact List.all_eq_true.mpr h0

theorem goFmt06x_ofNat (n : Nat) :
    goFmt06x (n : Int) =
      String.mk (List.replicate (6 - (hexStr n).data.length) '0') ++ String.mk (hexStr n).data := by
  unfold goFmt06x
  rw [if_neg (by omega)]
  simp

theorem goParseHexInt_goFmt06x (n : Nat) : goParseHexInt (goFmt06x (n : Int)) = n := by
  rw [goFmt06x_ofNat]
  have : (String.mk (List.replicate (6 - (hexStr n).data.length) '0') ++ String.mk (hexStr n).data)
      = ⟨List.replicate (6 - (hexStr n).data.length) '0' ++ (hexStr n).data⟩ := rfl
  rw [this, goParseHexInt_pad _ _ (hexStr_ne_nil n) (hexStr_all_hex n), hexFold_hexStr]

theorem goFmt06x_length (n : Nat) : 6 ≤ (goFmt06x (n : Int)).length := by
  rw [goFmt06x_ofNat]
  show 6 ≤ (List.replicate (6 - (hexStr n).data.length) '0' ++ (hexStr n).data).length
  rw [List.length_append, List.length_replicate]
  omega

theorem charToNat_inj {a b : Char} (h : a.toNat = b.toNat) : a = b := by
  rcases a with ⟨⟨⟨a1, ha⟩⟩, hva⟩
  rcases b with ⟨⟨⟨b1, hb⟩⟩, hvb⟩
  simp only [Char.toNat, UInt32.toNat] at h
  simp_all

theorem pushBuf_pos (t : TState) (ch : CP) (p : Pos) : (pushBuf t ch p).pos = p := by
  rcases t with ⟨rd, buf, bufpos, bufi, bufn, errs⟩
  unfold pushBuf TState.pos
  dsimp only
  fin_cases bufi <;> rfl

theorem read_step_pos (t : TState) (c : Char) (rest : List Char)
    (hb : t.bufn = 0) (hr : t.rd = c :: rest) :
    (t.read).2.pos =
      (if c = '\r' ∨ c = '\x0c' ∨ c = '\n' then (⟨0, t.pos.line + 1⟩ : Pos)
       else ⟨t.pos.char + 1, t.pos.line⟩) := by
  unfold TState.read
  rw [if_neg (by omega)]
  rw [hr]
  dsimp only
  by_cases hcr : c = '\r'
  · rw [if_pos hcr]
    dsimp only
    rw [pushBuf_pos]
    rw [if_pos (Or.inl hcr)]
  · rw [if_neg hcr]
    dsimp only
    rw [pushBuf_pos]
    by_cases hfc : c = '\x0c'
    · rw [if_pos (by simp [hfc]), if_pos (Or.inr (Or.inl hfc))]
    · by_cases hn : c = '\n'
      · rw [if_pos (by simp [hfc, hn]), if_pos (Or.inr (Or.inr hn))]
      · rw [if_neg ?hc1, if_neg (by simp [hcr, hfc, hn])]
        case hc1 =>
          by_cases h0 : c = '\x00'
          · simp only [hfc, if_false, h0, if_true]
            decide
          · simp only [hfc, if_false, h0, if_true]
            intro hcontra
            have h10 : c.toNat = 10 := by
              have h' : (c.toNat : Int) = 10 := by simpa [toCP] using hcontra
              omega
            exact hn (charToNat_inj (by rw [h10]; rfl))

theorem toCP_inj {a b : Char} (h : toCP a = toCP b) : a = b := by
  refine charToNat_inj ?_
  simpa [toCP] using h

theorem unread1_eq (t : TState) :
    unreadS 1 t = { t with bufi := t.bufi + 3, bufn := t.bufn + 1 } := rfl

theorem pushBuf_curr (t : TState) (ch : CP) (p : Pos) : (pushBuf t ch p).curr = ch := by
  rcases t with ⟨rd, buf, bufpos, bufi, bufn, e⟩
  unfold pushBuf TState.curr
  dsimp only
  fin_cases bufi <;> rfl

theorem curr_unread1_pushBuf (t : TState) (ch : CP) (p : Pos) :
    (unreadS 1 (pushBuf t ch p)).curr = t.curr := by
  rcases t with ⟨rd, buf, bufpos, bufi, bufn, e⟩
  unfold unreadS pushBuf TState.curr
  dsimp only
  fin_cases bufi <;> rfl

theorem read_buffered (u : TState) (hb : 0 < u.bufn) :
    u.read = (u.buf.get (u.bufi + 1), { u with bufi := u.bufi + 1, bufn := u.bufn - 1 }) := by
  unfold TState.read
  rw [if_pos hb]

theorem read_unread1_pushBuf (t : TState) (ch : CP) (p : Pos) :
    (unreadS 1 (pushBuf t ch p)).read = (ch, pushBuf t ch p) := by
  rw [read_buffered _ (by simp [unread1_eq, pushBuf])]
  rcases t with ⟨rd, buf, bufpos, bufi, bufn, e⟩
  fin_cases bufi <;> rfl

theorem read_eofS (t : TState) (hb : t.bufn = 0) (hr : t.rd = []) :
    t.read = (eofCP, pushBuf t eofCP t.pos) := by
  unfold TState.read
  rw [if_neg (by omega), hr]

theorem read_clean (t : TState) (c : Char) (rest : List Char)
    (hb : t.bufn = 0) (hr : t.rd = c :: rest) (h1 : c ≠ '\r') (h2 : c ≠ '\x0c') :
    t.read = (toCP (if c = '\x00' then '�' else c),
      pushBuf { t with rd := rest } (toCP (if c = '\x00' then '�' else c))
        (stepPos c t.pos)) := by
  unfold TState.read stepPos
  rw [if_neg (by omega), hr]
  dsimp only
  rw [if_neg h1]
  rw [if_neg h2]
  by_cases h0 : c = '\x00'
  · subst h0
    rw [if_pos rfl, if_pos rfl, if_neg (by decide), if_neg (by decide)]
    rfl
  · rw [if_neg h0, if_neg h0]
    by_cases hn : c = '\n'
    · subst hn
      rw [if_pos rfl, if_pos rfl]
    · rw [if_neg hn, if_neg ?hcp]
      case hcp =>
        intro hc
        exact hn (toCP_inj hc)



theorem toCP_eq_iff {a b : Char} : toCP a = toCP b ↔ a = b :=
  ⟨toCP_inj, fun h => by rw [h]⟩

theorem pushBuf_bufn (t : TState) (ch : CP) (p : Pos) : (pushBuf t ch p).bufn = t.bufn := rfl

theorem pushBuf_rd (t : TState) (ch : CP) (p : Pos) : (pushBuf t ch p).rd = t.rd := rfl

theorem preprocessNul_cons (c : Char) (l : List Char) :
    preprocessNul (c :: l) = (if c = '\x00' then '�' else c) :: preprocessNul l := rfl

theorem peekEscape_not_bs (t : TState) (h : t.curr ≠ toCP '\\') :
    peekEscape t = (false, t) := by
  unfold peekEscape
  rw [if_pos h]

theorem peekEscape_bs (t : TState) (h : t.curr = toCP '\\') :
    peekEscape t = (decide ((t.read).1 ≠ toCP '\n'), unreadS 1 (t.read).2) := by
  unfold peekEscape
  rw [if_neg (not_not_intro h)]

theorem peekIdent_dash (t : TState) (h : t.curr = toCP '-') :
    peekIdent t = (if isNameStart (t.read).1 then (true, unreadS 1 (t.read).2)
                   else peekEscape (unreadS 1 (t.read).2)) := by
  unfold peekIdent
  rw [if_pos h]

theorem peekIdent_nameStart (t : TState) (h1 : t.curr ≠ toCP '-')
    (h2 : isNameStart t.curr = true) : peekIdent t = (true, t) := by
  unfold peekIdent
  rw [if_neg h1, if_pos h2]

theorem peekIdent_bs (t : TState) (h1 : t.curr ≠ toCP '-')
    (h2 : ¬ isNameStart t.curr = true) (h3 : t.curr = toCP '\\') :
    peekIdent t = peekEscape t := by
  unfold peekIdent
  rw [if_neg h1, if_neg h2, if_pos h3]

theorem peekIdent_other (t : TState) (h1 : t.curr ≠ toCP '-')
    (h2 : ¬ isNameStart t.curr = true) (h3 : t.curr ≠ toCP '\\') :
    peekIdent t = (false, t) := by
  unfold peekIdent
  rw [if_neg h1, if_neg h2, if_neg h3]



theorem curr_rdset (t : TState) (l : List Char) :
    ({ t with rd := l } : TState).curr = t.curr := rfl

theorem preprocessNul_nil : preprocessNul [] = [] := rfl

theorem hashFollows_nameish {c : Char} (h : isName (toCP c) = true) (l : List Char) :
    hashFollows (c :: l) = true := by
  unfold hashFollows
  simp [h]

theorem hashFollows_other {c : Char} (h1 : isName (toCP c) = false) (h2 : c ≠ '\\')
    (l : List Char) : hashFollows (c :: l) = false := by
  unfold hashFollows
  simp [h1, h2]

theorem hashFollows_bs_nil : hashFollows ['\\'] = true := by decide

theorem hashFollows_bs_cons (c2 : Char) (l : List Char) :
    hashFollows ('\\' :: c2 :: l) = true ↔ c2 ≠ '\n' := by
  have hni : isName (toCP '\\') = false := by decide
  unfold hashFollows
  simp [hni]

theorem identFollows_dash_nil : identFollows ['-'] = false := by decide

theorem identFollows_dash_cons (c2 : Char) (l : List Char) :
    identFollows ('-' :: c2 :: l) = isNameStart (toCP c2) := by
  unfold identFollows
  simp

theorem identFollows_nameStart {c : Char} (h1 : c ≠ '-')
    (h2 : isNameStart (toCP c) = true) (l : List Char) :
    identFollows (c :: l) = true := by
  unfold identFollows
  simp [h1, h2]

theorem identFollows_other {c : Char} (h1 : c ≠ '-')
    (h2 : isNameStart (toCP c) = false) (h3 : c ≠ '\\') (l : List Char) :
    identFollows (c :: l) = false := by
  unfold identFollows
  simp [h1, h2, h3]

theorem identFollows_bs_nil : identFollows ['\\'] = true := by decide

theorem identFollows_bs_cons (c2 : Char) (l : List Char) :
    identFollows ('\\' :: c2 :: l) = true ↔ c2 ≠ '\n' := by
  have hni : isNameStart (toCP '\\') = false := by decide
  unfold identFollows
  simp [hni]

theorem scanHash_spec (s : List Char) (hs : crffFree s) (fuel : Nat) (tok : Token) (t' : TState)
    (h : scanHash fuel (((mkTState ('#' :: s)).read).2) = some (tok, t')) :
    (tok.tok = Tok.hash ↔ hashFollows (preprocessNul s) = true) ∧
    (tok.tok ≠ Tok.hash → tok.tok = Tok.delim ∧ tok.value = "#") ∧
    (tok.tok = Tok.hash → (tok.type = "id" ↔ identFollows (preprocessNul s) = true)) := by
  cases s with
  | nil =>
    have he : scanHash fuel (((mkTState ('#' :: ([] : List Char))).read).2) =
        some ({ tok := .delim, value := "#", pos := ⟨1, 0⟩ },
          unreadS 1 ((((mkTState ['#']).read).2).read).2) := rfl
    rw [he] at h
    simp only [Option.some.injEq, Prod.mk.injEq] at h
    obtain ⟨rfl, -⟩ := h
    exact ⟨iff_of_false (by decide) (by decide), fun _ => ⟨rfl, rfl⟩,
      fun hh => absurd hh (by decide)⟩
  | cons c1 rest =>
    have hc1 := hs c1 (by simp)
    have hT0 : ((mkTState ('#' :: c1 :: rest)).read).2 =
        (⟨c1 :: rest, ⟨0, 35, 0, 0⟩, ⟨⟨0, 0⟩, ⟨1, 0⟩, ⟨0, 0⟩, ⟨0, 0⟩⟩, 1, 0, []⟩ : TState) := rfl
    rw [hT0] at h
    unfold scanHash at h
    rw [read_clean _ c1 rest rfl rfl hc1.1 hc1.2] at h
    dsimp only at h
    set c1' : Char := if c1 = '\x00' then '\uFFFD' else c1 with hc1def
    by_cases hn1 : isName (toCP c1') = true
    · rw [if_pos hn1] at h
      dsimp only at h
      rw [if_pos rfl] at h
      by_cases hd1 : c1' = '-'
      · rw [peekIdent_dash _ (by rw [pushBuf_curr, hd1])] at h
        cases rest with
        | nil =>
          rw [read_eofS _ rfl rfl] at h
          dsimp only at h
          rw [if_neg (by decide)] at h
          rw [peekEscape_not_bs _ (by rw [curr_unread1_pushBuf, pushBuf_curr, hd1]; decide)] at h
          dsimp only at h
          split at h
          · exact absurd h (by simp)
          · simp only [Option.some.injEq, Prod.mk.injEq] at h
            obtain ⟨rfl, -⟩ := h
            refine ⟨iff_of_true rfl ?_, fun hne => absurd rfl hne,
              fun _ => iff_of_false (by simp) ?_⟩
            · rw [preprocessNul_cons, ← hc1def, hashFollows_nameish hn1]
            · rw [preprocessNul_cons, preprocessNul_nil, ← hc1def, hd1]
              simp [identFollows_dash_nil]
        | cons c2 rest2 =>
          have hc2 := hs c2 (by simp)
          rw [read_clean _ c2 rest2 rfl rfl hc2.1 hc2.2] at h
          dsimp only at h
          set c2' : Char := if c2 = '\x00' then '\uFFFD' else c2 with hc2def
          by_cases hns2 : isNameStart (toCP c2') = true
          · rw [if_pos hns2] at h
            dsimp only at h
            split at h
            · exact absurd h (by simp)
            · simp only [Option.some.injEq, Prod.mk.injEq] at h
              obtain ⟨rfl, -⟩ := h
              refine ⟨iff_of_true rfl ?_, fun hne => absurd rfl hne,
                fun _ => iff_of_true rfl ?_⟩
              · rw [preprocessNul_cons, ← hc1def, hashFollows_nameish hn1]
              · rw [preprocessNul_cons, preprocessNul_cons, ← hc1def, ← hc2def, hd1,
                  identFollows_dash_cons, hns2]
          · rw [if_neg hns2] at h
            rw [peekEscape_not_bs _ ?hpe1] at h
            case hpe1 =>
              rw [curr_unread1_pushBuf, curr_rdset, pushBuf_curr, hd1]
              decide
            dsimp only at h
            split at h
            · exact absurd h (by simp)
            · simp only [Option.some.injEq, Prod.mk.injEq] at h
              obtain ⟨rfl, -⟩ := h
              refine ⟨iff_of_true rfl ?_, fun hne => absurd rfl hne,
                fun _ => iff_of_false (by simp) ?_⟩
              · rw [preprocessNul_cons, ← hc1def, hashFollows_nameish hn1]
              · rw [preprocessNul_cons, preprocessNul_cons, ← hc1def, ← hc2def, hd1,
                  identFollows_dash_cons]
                simpa using hns2
      · by_cases hns1 : isNameStart (toCP c1') = true
        · rw [peekIdent_nameStart _
            (by rw [pushBuf_curr]; exact fun hc => hd1 (toCP_inj hc))
            (by rw [pushBuf_curr]; exact hns1)] at h
          dsimp only at h
          split at h
          · exact absurd h (by simp)
          · simp only [Option.some.injEq, Prod.mk.injEq] at h
            obtain ⟨rfl, -⟩ := h
            refine ⟨iff_of_true rfl ?_, fun hne => absurd rfl hne,
              fun _ => iff_of_true rfl ?_⟩
            · rw [preprocessNul_cons, ← hc1def, hashFollows_nameish hn1]
            · rw [preprocessNul_cons, ← hc1def, identFollows_nameStart hd1 hns1]
        · by_cases hb1 : c1' = '\\'
          · rw [hb1] at hn1
            exact absurd hn1 (by decide)
          · rw [peekIdent_other _
              (by rw [pushBuf_curr]; exact fun hc => hd1 (toCP_inj hc))
              (by rw [pushBuf_curr]; exact hns1)
              (by rw [pushBuf_curr]; exact fun hc => hb1 (toCP_inj hc))] at h
            dsimp only at h
            split at h
            · exact absurd h (by simp)
            · simp only [Option.some.injEq, Prod.mk.injEq] at h
              obtain ⟨rfl, -⟩ := h
              refine ⟨iff_of_true rfl ?_, fun hne => absurd rfl hne,
                fun _ => iff_of_false (by simp) ?_⟩
              · rw [preprocessNul_cons, ← hc1def, hashFollows_nameish hn1]
              · rw [preprocessNul_cons, ← hc1def,
                  identFollows_other hd1 (by simpa using hns1) hb1]
                simp
    · rw [if_neg hn1] at h
      by_cases hb1 : c1' = '\\'
      · rw [peekEscape_bs _ (by rw [pushBuf_curr, hb1])] at h
        cases rest with
        | nil =>
          rw [read_eofS _ rfl rfl] at h
          dsimp only at h
          rw [if_pos (by decide)] at h
          rw [peekIdent_bs _
            (by rw [curr_unread1_pushBuf, pushBuf_curr, hb1]; decide)
            (by rw [curr_unread1_pushBuf, pushBuf_curr, hb1]; decide)
            (by rw [curr_unread1_pushBuf, pushBuf_curr, hb1])] at h
          rw [peekEscape_bs _ (by rw [curr_unread1_pushBuf, pushBuf_curr, hb1])] at h
          rw [read_unread1_pushBuf] at h
          dsimp only at h
          split at h
          · exact absurd h (by simp)
          · simp only [Option.some.injEq, Prod.mk.injEq] at h
            obtain ⟨rfl, -⟩ := h
            refine ⟨iff_of_true rfl ?_, fun hne => absurd rfl hne,
              fun _ => iff_of_true ?_ ?_⟩
            · rw [preprocessNul_cons, preprocessNul_nil, ← hc1def, hb1]
              simp [hashFollows_bs_nil]
            · show (if decide (eofCP ≠ toCP '\n') = true then "id" else "unrestricted") = "id"
              rw [if_pos (by decide)]
            · rw [preprocessNul_cons, preprocessNul_nil, ← hc1def, hb1]
              simp [identFollows_bs_nil]
        | cons c2 rest2 =>
          have hc2 := hs c2 (by simp)
          rw [read_clean _ c2 rest2 rfl rfl hc2.1 hc2.2] at h
          dsimp only at h
          set c2' : Char := if c2 = '\x00' then '\uFFFD' else c2 with hc2def
          by_cases hnl : c2' = '\n'
          · rw [hnl] at h
            rw [if_neg (by decide)] at h
            simp only [Option.some.injEq, Prod.mk.injEq] at h
            obtain ⟨rfl, -⟩ := h
            refine ⟨iff_of_false (by simp) ?_, fun _ => ⟨rfl, rfl⟩,
              fun hh => absurd hh (by simp)⟩
            rw [preprocessNul_cons, preprocessNul_cons, ← hc1def, ← hc2def, hb1]
            rw [show (hashFollows ('\\' :: c2' :: preprocessNul rest2) = true) =
              (c2' ≠ '\n') from propext (hashFollows_bs_cons c2' (preprocessNul rest2))]
            simp [hnl]
          · rw [if_pos (by rw [decide_eq_true_eq]; exact fun hc => hnl (toCP_inj hc))] at h
            rw [peekIdent_bs _ ?hp1 ?hp2 ?hp3] at h
            case hp1 =>
              rw [curr_unread1_pushBuf, curr_rdset, pushBuf_curr, hb1]
              decide
            case hp2 =>
              rw [curr_unread1_pushBuf, curr_rdset, pushBuf_curr, hb1]
              decide
            case hp3 =>
              rw [curr_unread1_pushBuf, curr_rdset, pushBuf_curr, hb1]
            rw [peekEscape_bs _ ?hp4] at h
            case hp4 =>
              rw [curr_unread1_pushBuf, curr_rdset, pushBuf_curr, hb1]
            rw [read_unread1_pushBuf] at h
            dsimp only at h
            split at h
            · exact absurd h (by simp)
            · simp only [Option.some.injEq, Prod.mk.injEq] at h
              obtain ⟨rfl, -⟩ := h
              refine ⟨iff_of_true rfl ?_, fun hne => absurd rfl hne,
                fun _ => iff_of_true ?_ ?_⟩
              · rw [preprocessNul_cons, preprocessNul_cons, ← hc1def, ← hc2def, hb1]
                exact (hashFollows_bs_cons c2' (preprocessNul rest2)).mpr hnl
              · show (if decide (toCP c2' ≠ toCP '\n') = true then "id" else "unrestricted") = "id"
                rw [if_pos (by rw [decide_eq_true_eq]; exact fun hc => hnl (toCP_inj hc))]
              · rw [preprocessNul_cons, preprocessNul_cons, ← hc1def, ← hc2def, hb1]
                exact (identFollows_bs_cons c2' (preprocessNul rest2)).mpr hnl
      · rw [peekEscape_not_bs _
          (by rw [pushBuf_curr]; exact fun hc => hb1 (toCP_inj hc))] at h
        dsimp only at h
        rw [if_neg (by decide)] at h
        simp only [Option.some.injEq, Prod.mk.injEq] at h
        obtain ⟨rfl, -⟩ := h
        refine ⟨iff_of_false (by simp) ?_, fun _ => ⟨rfl, rfl⟩,
          fun hh => absurd hh (by simp)⟩
        rw [preprocessNul_cons, ← hc1def, hashFollows_other (by simpa using hn1) hb1]
        simp

theorem scanHash_spec_proj (s : List Char) (hs : crffFree s) (fuel : Nat) (tok : Token)
    (h : (scanHash fuel (((mkTState ('#' :: s)).read).2)).map Prod.fst = some tok) :
    (tok.tok = Tok.hash ↔ hashFollows (preprocessNul s) = true) ∧
    (tok.tok ≠ Tok.hash → tok.tok = Tok.delim ∧ tok.value = "#") ∧
    (tok.tok = Tok.hash → (tok.type = "id" ↔ identFollows (preprocessNul s) = true)) := by
  rcases hsc : scanHash fuel (((mkTState ('#' :: s)).read).2) with _ | ⟨tk, t2⟩
  · rw [hsc] at h
    exact absurd h (by simp)
  · rw [hsc] at h
    simp only [Option.map_some', Option.some.injEq] at h
    obtain rfl := h
    exact scanHash_spec s hs fuel tk t2 hsc

theorem scanv_TokSc (s : TokSc) : (CVScanner.scanv s : CV × TokSc) = TokSc.scanT s := rfl

theorem currentv_TokSc (s : TokSc) :
    (CVScanner.currentv s : Option CV) = s.tokbuf.map CV.tok := rfl

theorem scanT_last (t : Token) (buf : Option Token) :
    TokSc.scanT ⟨[t], buf, false⟩ = (CV.tok t, ⟨[t], some t, false⟩) := rfl

theorem scanT_buffered (p : List Token) (t : Token) :
    TokSc.scanT ⟨p, some t, true⟩ = (CV.tok t, ⟨p, some t, false⟩) := rfl

theorem scanT_cons (t : Token) (rest : List Token) (hne : rest ≠ []) (buf : Option Token) :
    TokSc.scanT ⟨t :: rest, buf, false⟩ = (CV.tok t, ⟨rest, some t, false⟩) := by
  cases rest with
  | nil => exact absurd rfl hne
  | cons a l => rfl

theorem skipWhitespace_ws (ws : List Token) (e : Token)
    (hw : ∀ t ∈ ws, t.tok = Tok.whitespace) (he : e.tok = Tok.eof) :
    ∀ (f : Nat) (buf : Option Token), ws.length + 1 ≤ f →
      skipWhitespace f (⟨ws ++ [e], buf, false⟩ : TokSc) =
        some (⟨[e], some e, true⟩ : TokSc) := by
  induction ws with
  | nil =>
    intro f buf hf
    cases f with
    | zero => omega
    | succ f =>
      rw [List.nil_append, skipWhitespace, scanv_TokSc, scanT_last]
      dsimp only
      rw [if_pos (by simp [he])]
      rfl
  | cons t ts ih =>
    intro f buf hf
    cases f with
    | zero => simp at hf
    | succ f =>
      rw [List.cons_append, skipWhitespace, scanv_TokSc,
        scanT_cons t (ts ++ [e]) (by simp) buf]
      dsimp only
      rw [if_neg (by simp [hw t (by simp)])]
      exact ih (fun x hx => hw x (by simp [hx])) f (some t) (by simpa using hf)

theorem ParseRule_ws (ws : List Token) (e : Token)
    (hw : ∀ t ∈ ws, t.tok = Tok.whitespace) (he : e.tok = Tok.eof)
    (f : Nat) (hf : ws.length + 1 ≤ f) :
    ParseRule (ws ++ [e]) f = some (none, [⟨"unexpected EOF", e.pos⟩]) := by
  unfold ParseRule
  dsimp only
  rw [skipWhitespace_ws ws e hw he f none hf]
  simp only [Option.bind_eq_bind, Option.some_bind]
  rw [scanT_buffered]
  dsimp only
  rw [if_pos he, currentv_TokSc]
  rfl

theorem isDigitChar_cpChar {ch : CP} (h : isDigit ch = true) :
    isDigitChar (cpChar ch) = true := by
  have hb : (48 : Int) ≤ ch ∧ ch ≤ 57 := by
    simpa [isDigit, toCP, Bool.and_eq_true, decide_eq_true_eq] using h
  rcases hb with ⟨h1, h2⟩
  interval_cases ch <;> decide

theorem ndChar_of_digit {c : Char} (h : isDigitChar c = true) : ndChar c = true := by
  have hb : (48 : Int) ≤ toCP c ∧ toCP c ≤ 57 := by
    simpa [isDigitChar, isDigit, toCP, Bool.and_eq_true, decide_eq_true_eq] using h
  rcases hb with ⟨h1, h2⟩
  simp only [ndChar, Bool.not_eq_true', Bool.or_eq_false_iff, beq_eq_false_iff_ne]
  refine ⟨⟨?_, ?_⟩, ?_⟩ <;> rintro rfl <;> simp [toCP] at h1 h2

theorem noDotE_false_of_mem {s : String} {c : Char} (hc : c ∈ s.data)
    (h : ndChar c = false) : noDotE s = false := by
  rw [noDotE, List.all_eq_false]
  exact ⟨c, hc, by simp [h]⟩

theorem scanDigitsLoop_spec (f : Nat) :
    ∀ (buf : String) (t : TState) (res : String) (t2 : TState),
      scanDigitsLoop f buf t = some (res, t2) →
      ∃ l, res.data = buf.data ++ l ∧ l.all isDigitChar = true := by
  induction f with
  | zero => intro buf t res t2 h; exact absurd h (by simp [scanDigitsLoop])
  | succ f ih =>
    intro buf t res t2 h
    rcases hr : t.read with ⟨ch, t1⟩
    rw [scanDigitsLoop, hr] at h
    dsimp only at h
    by_cases hd : isDigit ch = true
    · rw [if_pos hd] at h
      obtain ⟨l, h1, h2⟩ := ih _ _ _ _ h
      refine ⟨cpChar ch :: l, ?_, ?_⟩
      · rw [h1, data_push]; simp
      · simp [h2, isDigitChar_cpChar hd]
    · rw [if_neg (by simpa using hd)] at h
      simp only [Option.some.injEq, Prod.mk.injEq] at h
      obtain ⟨rfl, -⟩ := h
      exact ⟨[], by simp, rfl⟩

theorem scanNumberFrac_spec (fuel : Nat) (buf1 : String) (t3 : TState)
    (buf2 typ2 : String) (t6 : TState)
    (h : scanNumberFrac fuel buf1 t3 = some (buf2, typ2, t6)) :
    (typ2 = "integer" ∧ buf2 = buf1) ∨ (typ2 = "number" ∧ noDotE buf2 = false) := by
  unfold scanNumberFrac at h
  rcases hr : t3.read with ⟨ch0, t4⟩
  rw [hr] at h
  dsimp only at h
  by_cases hdot : ch0 = toCP '.'
  · rw [if_pos hdot] at h
    rcases hr2 : t4.read with ⟨ch1, t5⟩
    rw [hr2] at h
    dsimp only at h
    by_cases hdig : isDigit ch1 = true
    · rw [if_pos hdig] at h
      rcases hds : scanDigits fuel t5 with _ | ⟨ds2, t5x⟩
      · rw [hds] at h; exact absurd h (by simp)
      · rw [hds] at h
        simp only [Option.bind_eq_bind, Option.some_bind, Option.pure_def,
          Option.some.injEq, Prod.mk.injEq] at h
        obtain ⟨rfl, rfl, rfl⟩ := h
        subst hdot
        refine Or.inr ⟨rfl, ?_⟩
        refine noDotE_false_of_mem (c := cpChar (toCP '.')) ?_ (by decide)
        simp [data_append, data_push]
    · rw [if_neg (by simpa using hdig)] at h
      simp only [Option.pure_def, Option.some.injEq, Prod.mk.injEq] at h
      obtain ⟨rfl, rfl, rfl⟩ := h
      exact Or.inl ⟨rfl, rfl⟩
  · rw [if_neg hdot] at h
    simp only [Option.pure_def, Option.some.injEq, Prod.mk.injEq] at h
    obtain ⟨rfl, rfl, rfl⟩ := h
    exact Or.inl ⟨rfl, rfl⟩

theorem scanNumberExp_spec (buf2 typ2 : String) (t6 : TState)
    (buf3 typ3 : String) (t9 : TState)
    (h : scanNumberExp buf2 typ2 t6 = (buf3, typ3, t9)) :
    (typ3 = typ2 ∧ buf3 = buf2) ∨ (typ3 = "number" ∧ noDotE buf3 = false) := by
  unfold scanNumberExp at h
  rcases hr : t6.read with ⟨che0, t7⟩
  rw [hr] at h
  dsimp only at h
  by_cases h0 : che0 = toCP 'e' ∨ che0 = toCP 'E'
  · rw [if_pos h0] at h
    rcases hr2 : t7.read with ⟨che1, t8⟩
    rw [hr2] at h
    dsimp only at h
    by_cases h1 : che1 = toCP '+' ∨ che1 = toCP '-'
    · rw [if_pos h1] at h
      rcases hr3 : t8.read with ⟨che2, t8x⟩
      rw [hr3] at h
      dsimp only at h
      by_cases h2 : isDigit che2 = true
      · rw [if_pos h2] at h
        simp only [Prod.mk.injEq] at h
        obtain ⟨rfl, rfl, rfl⟩ := h
        refine Or.inr ⟨rfl, ?_⟩
        refine noDotE_false_of_mem (c := cpChar che0) ?_ ?_
        · simp [data_push]
        · rcases h0 with h0 | h0 <;> subst h0 <;> decide
      · rw [if_neg (by simpa using h2)] at h
        simp only [Prod.mk.injEq] at h
        obtain ⟨rfl, rfl, rfl⟩ := h
        exact Or.inl ⟨rfl, rfl⟩
    · rw [if_neg h1] at h
      by_cases h2 : isDigit che1 = true
      · rw [if_pos h2] at h
        simp only [Prod.mk.injEq] at h
        obtain ⟨rfl, rfl, rfl⟩ := h
        refine Or.inr ⟨rfl, ?_⟩
        refine noDotE_false_of_mem (c := cpChar che0) ?_ ?_
        · simp [data_push]
        · rcases h0 with h0 | h0 <;> subst h0 <;> decide
      · rw [if_neg (by simpa using h2)] at h
        simp only [Prod.mk.injEq] at h
        obtain ⟨rfl, rfl, rfl⟩ := h
        exact Or.inl ⟨rfl, rfl⟩
  · rw [if_neg h0] at h
    simp only [Prod.mk.injEq] at h
    obtain ⟨rfl, rfl, rfl⟩ := h
    exact Or.inl ⟨rfl, rfl⟩

theorem scanNumberRest_typ (fuel : Nat) (buf0 : String) (t2 : TState)
    (hnd : buf0.data.all ndChar = true)
    (num : Rat) (typ repr : String) (t' : TState)
    (h : scanNumberRest fuel buf0 t2 = some (num, typ, repr, t')) :
    (typ = "integer" ∨ typ = "number") ∧ (typ = "integer" ↔ noDotE repr = true) := by
  unfold scanNumberRest at h
  rcases hds : scanDigits fuel t2 with _ | ⟨ds, t3⟩
  · rw [hds] at h; exact absurd h (by simp)
  rw [hds] at h
  simp only [Option.bind_eq_bind, Option.some_bind] at h
  rcases hfr : scanNumberFrac fuel (buf0 ++ ds) t3 with _ | ⟨buf2, typ2, t6⟩
  · rw [hfr] at h; exact absurd h (by simp)
  rw [hfr] at h
  simp only [Option.some_bind] at h
  rcases hexp : scanNumberExp buf2 typ2 t6 with ⟨buf3, typ3, t9⟩
  rw [hexp] at h
  simp only [Option.pure_def, Option.some.injEq, Prod.mk.injEq] at h
  obtain ⟨-, rfl, rfl, -⟩ := h
  have hds_nd : ds.data.all ndChar = true := by
    obtain ⟨l, h1, h2⟩ := scanDigitsLoop_spec fuel "" t2 ds t3 hds
    rw [h1]
    rw [List.all_eq_true] at h2 ⊢
    intro c hc
    refine ndChar_of_digit (h2 c ?_)
    simpa using hc
  have hnd1 : noDotE (buf0 ++ ds) = true := by
    simp only [noDotE, data_append, List.all_append, Bool.and_eq_true]
    exact ⟨hnd, hds_nd⟩
  rcases scanNumberFrac_spec fuel (buf0 ++ ds) t3 buf2 typ2 t6 hfr with
    ⟨hty2, hbuf2⟩ | ⟨hty2, hnd2⟩
  · rcases scanNumberExp_spec buf2 typ2 t6 buf3 typ3 t9 hexp with
      ⟨hty3, hbuf3⟩ | ⟨hty3, hnd3⟩
    · subst hbuf3; subst hbuf2
      rw [hty3, hty2]
      exact ⟨Or.inl rfl, iff_of_true rfl hnd1⟩
    · rw [hty3]
      exact ⟨Or.inr rfl, iff_of_false (by decide) (by simp [hnd3])⟩
  · rcases scanNumberExp_spec buf2 typ2 t6 buf3 typ3 t9 hexp with
      ⟨hty3, hbuf3⟩ | ⟨hty3, hnd3⟩
    · subst hbuf3
      rw [hty3, hty2]
      exact ⟨Or.inr rfl, iff_of_false (by decide) (by simp [hnd2])⟩
    · rw [hty3]
      exact ⟨Or.inr rfl, iff_of_false (by decide) (by simp [hnd3])⟩

theorem scanNumber_typ_spec (fuel : Nat) (t : TState)
    (num : Rat) (typ repr : String) (t' : TState)
    (h : scanNumber fuel t = some (num, typ, repr, t')) :
    (typ = "integer" ∨ typ = "number") ∧ (typ = "integer" ↔ noDotE repr = true) := by
  unfold scanNumber at h
  rcases hr : t.read with ⟨ch, t1⟩
  rw [hr] at h
  dsimp only at h
  by_cases hsign : ch = toCP '+' ∨ ch = toCP '-'
  · rw [if_pos hsign] at h
    refine scanNumberRest_typ fuel _ t1 ?_ num typ repr t' h
    rcases hsign with hs | hs <;> subst hs <;> decide
  · rw [if_neg hsign] at h
    exact scanNumberRest_typ fuel "" (unreadS 1 t1) rfl num typ repr t' h

theorem scanNumber_typ_proj (fuel : Nat) (t : TState) (typ repr : String)
    (h : (scanNumber fuel t).map (fun r => (r.2.1, r.2.2.1)) = some (typ, repr)) :
    (typ = "integer" ∨ typ = "number") ∧ (typ = "integer" ↔ noDotE repr = true) := by
  rcases hs : scanNumber fuel t with _ | ⟨num, typ', repr', t''⟩
  · rw [hs] at h; exact absurd h (by simp)
  · rw [hs] at h
    simp only [Option.map_some', Option.some.injEq, Prod.mk.injEq] at h
    obtain ⟨rfl, rfl⟩ := h
    exact scanNumber_typ_spec fuel t num typ' repr' t'' hs

theorem data_replaceQ (c0 : Char) (s : String) :
    (replaceQ c0 s).data = s.data.map (fun c => if c = '?' then c0 else c) := rfl

theorem isHexDigitChar_cpChar {ch : CP} (h : isHexDigit ch = true) :
    isHexDigitChar (cpChar ch) = true := by
  have hb : (((48 : Int) ≤ ch ∧ ch ≤ 57) ∨ ((97 : Int) ≤ ch ∧ ch ≤ 102)) ∨
      ((65 : Int) ≤ ch ∧ ch ≤ 70) := by
    simpa [isHexDigit, toCP, Bool.or_eq_true, Bool.and_eq_true, decide_eq_true_eq] using h
  rcases hb with (⟨h1, h2⟩ | ⟨h1, h2⟩) | ⟨h1, h2⟩ <;> interval_cases ch <;> decide

theorem hexFold_mono_from {a b : List Char}
    (h : List.Forall₂ (fun x y => hexDigitVal x ≤ hexDigitVal y) a b) :
    ∀ acc1 acc2, acc1 ≤ acc2 →
      a.foldl (fun a c => 16 * a + hexDigitVal c) acc1 ≤
        b.foldl (fun a c => 16 * a + hexDigitVal c) acc2 := by
  induction h with
  | nil => intro _ _ hacc; simpa using hacc
  | cons hxy _ ih =>
    intro acc1 acc2 hacc
    simp only [List.foldl_cons]
    exact ih _ _ (by omega)

theorem forall2_replace (l : List Char) :
    List.Forall₂ (fun x y => hexDigitVal x ≤ hexDigitVal y)
      (l.map (fun c => if c = '?' then '0' else c))
      (l.map (fun c => if c = '?' then 'F' else c)) := by
  induction l with
  | nil => constructor
  | cons c r ih =>
    simp only [List.map_cons]
    refine List.Forall₂.cons ?_ ih
    by_cases hc : c = '?'
    · simp [hc, hexDigitVal]
    · simp [hc]

theorem readHexUpTo_spec (k : Nat) :
    ∀ (buf : String) (t : TState),
      ∃ ds, ((readHexUpTo k buf t).1).data = buf.data ++ ds ∧
        ds.all isHexDigitChar = true := by
  induction k with
  | zero => intro buf t; exact ⟨[], by simp [readHexUpTo], rfl⟩
  | succ k ih =>
    intro buf t
    rcases hr : t.read with ⟨ch, t1⟩
    by_cases hx : isHexDigit ch = true
    · obtain ⟨ds, h1, h2⟩ := ih (buf.push (cpChar ch)) t1
      refine ⟨cpChar ch :: ds, ?_, ?_⟩
      · simp only [readHexUpTo, hr, hx, if_true]
        rw [h1, data_push]
        simp
      · simp [h2, isHexDigitChar_cpChar hx]
    · refine ⟨[], ?_, rfl⟩
      simp only [readHexUpTo, hr]
      rw [if_neg (by simpa using hx)]
      simp

theorem readQMUpTo_spec (k : Nat) :
    ∀ (buf : String) (t : TState),
      ∃ qs, ((readQMUpTo k buf t).1).data = buf.data ++ qs ∧
        qs.all (fun c => c == '?') = true := by
  induction k with
  | zero => intro buf t; exact ⟨[], by simp [readQMUpTo], rfl⟩
  | succ k ih =>
    intro buf t
    rcases hr : t.read with ⟨ch, t1⟩
    by_cases hq : ch = toCP '?'
    · subst hq
      obtain ⟨qs, h1, h2⟩ := ih (buf.push (cpChar (toCP '?'))) t1
      refine ⟨cpChar (toCP '?') :: qs, ?_, ?_⟩
      · simp only [readQMUpTo, hr, if_true]
        rw [h1, data_push]
        simp
      · simp only [List.all_cons, h2, Bool.and_true]
        decide
    · refine ⟨[], ?_, rfl⟩
      simp only [readQMUpTo, hr]
      rw [if_neg hq]
      simp

theorem goParseHexInt_replace_mono {l : List Char}
    (hl : ∀ c ∈ l, isHexDigitChar c = true ∨ c = '?') (hne : l ≠ []) :
    goParseHexInt ⟨l.map (fun c => if c = '?' then '0' else c)⟩ ≤
      goParseHexInt ⟨l.map (fun c => if c = '?' then 'F' else c)⟩ := by
  have hall : ∀ (c0 : Char), isHexDigitChar c0 = true →
      (l.map (fun c => if c = '?' then c0 else c)).all isHexDigitChar = true := by
    intro c0 hc0
    rw [List.all_eq_true]
    intro x hx
    obtain ⟨c, hc, rfl⟩ := List.mem_map.mp hx
    rcases hl c hc with h | h
    · by_cases hq : c = '?'
      · simp [hq, hc0]
      · simpa [hq] using h
    · simp [h, hc0]
  unfold goParseHexInt
  rw [if_pos ⟨by simpa using hne, hall '0' rfl⟩, if_pos ⟨by simpa using hne, hall 'F' rfl⟩]
  exact Int.ofNat_le.mpr (hexFold_mono_from (forall2_replace l) 0 0 le_rfl)

/-! # Claim theorems -/

/-- C1.  The declaration value list of `color: red !important` (as collected
by `consume_declaration`): `cleanImportantFlag` does set `Important = true`,
but because the trim step keeps `values[i:]` instead of `values[:i]`, the
stored values are exactly the `Delim("!")` and `Ident("important")` tokens —
the two the function's own comment says it removes — while the actual value
(`Ident("red")` and the whitespace) is dropped.  The second conjunct shows
the same through `consumeDeclaration` end to end. -/
theorem c1_important_trim_keeps_bang_important :
    cleanImportantFlag
      [CV.tok { tok := .whitespace, value := " ", pos := ⟨7, 0⟩ },
       CV.tok { tok := .ident, value := "red", pos := ⟨8, 0⟩ },
       CV.tok { tok := .whitespace, value := " ", pos := ⟨11, 0⟩ },
       CV.tok { tok := .delim, value := "!", pos := ⟨12, 0⟩ },
       CV.tok { tok := .ident, value := "important", pos := ⟨13, 0⟩ }] =
      ([CV.tok { tok := .delim, value := "!", pos := ⟨12, 0⟩ },
        CV.tok { tok := .ident, value := "important", pos := ⟨13, 0⟩ }], true) ∧
    (consumeDeclaration 99 (mkCVList
      [CV.tok { tok := .ident, value := "color", pos := ⟨1, 0⟩ },
       CV.tok { tok := .colon, pos := ⟨6, 0⟩ },
       CV.tok { tok := .whitespace, value := " ", pos := ⟨7, 0⟩ },
       CV.tok { tok := .ident, value := "red", pos := ⟨8, 0⟩ },
       CV.tok { tok := .whitespace, value := " ", pos := ⟨11, 0⟩ },
       CV.tok { tok := .delim, value := "!", pos := ⟨12, 0⟩ },
       CV.tok { tok := .ident, value := "important", pos := ⟨13, 0⟩ }]) []).map (fun r => r.1) =
      some (some (Declaration.mk "color"
        [CV.tok { tok := .delim, value := "!", pos := ⟨12, 0⟩ },
         CV.tok { tok := .ident, value := "important", pos := ⟨13, 0⟩ }]
        true)) :=
  ⟨rfl, rfl⟩

/-- C5.  A component-value source (the source's `componentValueList`) whose
next element after the at-keyword is a materialized `SimpleBlock` with an
`LBrace` opening token: `consumeAtRule` takes its `*SimpleBlock` acceptance
branch, but the `consumeSimpleBlock` it then calls asserts
`s.Current().(*Token)` — and the current component value is the block, not a
token, so the assertion fails (a Go panic, modelled as `none`) for every
fuel.  The rule is never produced and the block never becomes its `Block`. -/
theorem c5_consume_at_rule_materialized_block_panics (fuel : Nat) :
    consumeAtRule fuel (CVList.mk 0
      [CV.tok { tok := .atKeyword, value := "media", pos := ⟨1, 0⟩ },
       CV.block { tok := .lbrace, pos := ⟨8, 0⟩ } []]) = none := by
  match fuel with
  | 0 => rfl
  | _ + 1 => rfl

/-- C6 counterexample.  With `Start = End = 1` the printer still writes both
endpoints (`fmt.Fprintf(w, "U+%06x-U+%06x", …)` is unconditional), not the
single `U+000001` the claim prescribes for `s = e`. -/
theorem c6_print_unicode_range_counterexample :
    printToken { tok := .unicodeRange, start := 1, endr := 1 } = "U+000001-U+000001" ∧
    printToken { tok := .unicodeRange, start := 1, endr := 1 } ≠ "U+000001" := by
  exact ⟨rfl, by decide⟩

/-- C6 amended.  The printer writes a `UnicodeRange` token as `U+`, the
start as at-least-six-digit lowercase hex, then always `-U+` and the end in
the same format — also when start and end coincide.  The second conjunct
checks the hex rendering: it parses back to the printed value and is at
least six characters wide. -/
theorem c6_print_unicode_range_always_pair :
    (∀ t : Token, t.tok = .unicodeRange →
      printToken t = "U+" ++ goFmt06x t.start ++ "-U+" ++ goFmt06x t.endr) ∧
    (∀ n : Nat, goParseHexInt (goFmt06x (n : Int)) = (n : Int) ∧
      6 ≤ (goFmt06x (n : Int)).length) := by
  constructor
  · intro t h
    simp [printToken, h]
  · intro n
    exact ⟨goParseHexInt_goFmt06x n, goFmt06x_length n⟩

/-- Witness for the C6 amended theorem at `Start = End = 2`. -/
theorem c6_print_unicode_range_always_pair_witness :
    printToken { tok := Tok.unicodeRange, start := 2, endr := 2 } =
      "U+" ++ goFmt06x 2 ++ "-U+" ++ goFmt06x 2 :=
  c6_print_unicode_range_always_pair.1 _ rfl

/-- C2 counterexample.  Scanning `1/**/.5` yields two `Number` tokens with
reprs `1` and `.5` (the comment separates them and is dropped); printing
them produces `1.5`, which re-scans as a *single* `Number` with repr `1.5`.
The printed stream is not equal to the original modulo whitespace values and
bad-token forms, and the `Number` token with repr `1` does not reappear. -/
theorem c2_round_trip_counterexample :
    ((tokenizeStr 99 "1/**/.5").getD []).map Token.tok = [.number, .number, .eof] ∧
    ((tokenizeStr 99 "1/**/.5").getD []).map Token.value = ["1", ".5", ""] ∧
    printTokens (((tokenizeStr 99 "1/**/.5").getD []).dropLast) = "1.5" ∧
    ((tokenizeStr 99 "1.5").getD []).map Token.tok = [.number, .eof] ∧
    ((tokenizeStr 99 "1.5").getD []).map Token.value = ["1.5", ""] ∧
    ¬ tokensEqMod (((tokenizeStr 99 "1/**/.5").getD []).dropLast)
        (((tokenizeStr 99 "1.5").getD []).dropLast) :=
  ⟨rfl, rfl, rfl, rfl, rfl, by decide⟩

/-- C2 amended.  What survives of the round-trip claim is its final clause:
the printer emits exactly the stored repr (`Value`) for every `Number`,
`Percentage` and `Dimension` token.  Re-tokenizing the printed stream does
not in general reproduce the token sequence, because adjacent printed tokens
can merge (see the counterexample). -/
theorem c2_printer_emits_repr (t : Token)
    (h : t.tok = .number ∨ t.tok = .percentage ∨ t.tok = .dimension) :
    printToken t = t.value := by
  rcases h with h | h | h <;> simp [printToken, h]

/-- Witness for the C2 amended theorem at the `100E-` dimension token. -/
theorem c2_printer_emits_repr_witness :
    printToken (Token.mk Tok.dimension "integer" "100E-" 100 "E-" 0 0 0 ⟨1, 0⟩) = "100E-" :=
  c2_printer_emits_repr _ (Or.inr (Or.inr rfl))

/-- C3 counterexample.  On `u+02-0000004` the scanner reads only six of the
seven hex digits after the `-`; `0000004` truncates to `000000`, so the token
has `Start = 2` and `End = 0` with `Start ≤ End` false (the repository's own
scanner test pins exactly these values).  The leftover digit `4` becomes the
next token. -/
theorem c3_unicode_range_counterexample :
    ((tokenizeStr 99 "u+02-0000004").getD []).map
        (fun t => (t.tok, t.value, t.start, t.endr, t.pos)) =
      [(.unicodeRange, "", 2, 0, ⟨1, 0⟩),
       (.number, "4", 0, 0, ⟨12, 0⟩),
       (.eof, "", 0, 0, ⟨12, 0⟩)] ∧
    ¬ ((2 : Int) ≤ 0) :=
  ⟨by rfl, by decide⟩

/-- C3 amended.  The `Start ≤ End` invariant does hold on the wildcard form
(`?` expands to `0` for the start and `F` for the end, and the hex fold is
monotone digit-by-digit) and on the single-point form (`End` is set to
`Start`); it can only fail on the dashed form, where the two endpoints are
parsed independently.  `dashEndShape` is exactly the condition for the
dashed branch of `scanUnicodeRange`. -/
theorem c3_unicode_range_no_dash_start_le_end (t : TState)
    (h : dashEndShape t = false) :
    ((scanUnicodeRange t).1).start ≤ ((scanUnicodeRange t).1).endr := by
  obtain ⟨ds, hd1, hd2⟩ := readHexUpTo_spec 6 "" t
  rcases h1 : readHexUpTo 6 "" t with ⟨buf1, t1⟩
  rw [h1] at hd1
  obtain ⟨qs, hq1, hq2⟩ := readQMUpTo_spec (6 - buf1.length) buf1 t1
  rcases h2 : readQMUpTo (6 - buf1.length) buf1 t1 with ⟨buf2, t2⟩
  rw [h2] at hq1
  unfold dashEndShape at h
  rw [h1] at h
  dsimp only at h
  rw [h2] at h
  dsimp only at h
  unfold scanUnicodeRange
  rw [h1]
  dsimp only
  rw [h2]
  dsimp only
  by_cases hw : buf2.length > buf1.length
  · rw [if_pos hw]
    have hne : buf2.data ≠ [] := by
      have h0 : buf2.length = buf2.data.length := rfl
      have : 0 < buf2.data.length := by omega
      exact List.ne_nil_of_length_pos this
    have hl : ∀ c ∈ buf2.data, isHexDigitChar c = true ∨ c = '?' := by
      intro c hc
      rw [hq1, hd1] at hc
      simp only [List.nil_append, List.mem_append] at hc
      rcases hc with hc | hc
      · exact Or.inl (by simpa using (List.all_eq_true.mp hd2 c hc))
      · exact Or.inr (by simpa using (List.all_eq_true.mp hq2 c hc))
    exact goParseHexInt_replace_mono hl hne
  · rw [if_neg hw] at h ⊢
    rcases h3 : t2.read with ⟨ch1, t3⟩
    rcases h4 : t3.read with ⟨ch2, t4⟩
    simp only [h3, h4] at h ⊢
    by_cases hd : ch1 = toCP '-' ∧ isHexDigit ch2 = true
    · rw [if_pos hd] at h
      exact absurd h (by simp)
    · rw [if_neg hd]

/-- Witness for the C3 amended theorem: the wildcard state reached after the
`u+` of `u+1?` (remaining input `1?`), where the token gets `Start = 0x10`
and `End = 0x1F`. -/
theorem c3_unicode_range_no_dash_start_le_end_witness :
    dashEndShape (mkTState ['1', '?']) = false ∧
    ((scanUnicodeRange (mkTState ['1', '?'])).1).start ≤
      ((scanUnicodeRange (mkTState ['1', '?'])).1).endr :=
  ⟨rfl, c3_unicode_range_no_dash_start_le_end _ rfl⟩

/-- C7.  `ParseRule` error handling.  The first conjunct covers every
whitespace-only (or empty) token stream with any sufficient fuel: the parser
skips the whitespace, meets EOF and returns no rule with the single error
`unexpected EOF` at the EOF token's position.  The remaining conjuncts run
the embedded pipeline on the claim's inputs: the empty input and `  `
produce `unexpected EOF`, and `foo {} bar` produces `expected EOF, got bar`
recorded at `(char 8, line 0)` — the recorded position of the residue token
`bar`, as the sixth token of the third conjunct's stream shows. -/
theorem c7_parse_rule_error_handling :
    (∀ (ws : List Token) (e : Token) (f : Nat),
      (∀ t ∈ ws, t.tok = Tok.whitespace) → e.tok = Tok.eof → ws.length + 1 ≤ f →
      ParseRule (ws ++ [e]) f = some (none, [⟨"unexpected EOF", e.pos⟩])) ∧
    tokenizeStr 99 "" = some [{ tok := .eof }] ∧
    ParseRule [{ tok := .eof }] 99 = some (none, [⟨"unexpected EOF", ⟨0, 0⟩⟩]) ∧
    tokenizeStr 99 "  " = some [{ tok := .whitespace, value := "  ", pos := ⟨1, 0⟩ },
                                { tok := .eof, pos := ⟨2, 0⟩ }] ∧
    ParseRule [{ tok := .whitespace, value := "  ", pos := ⟨1, 0⟩ },
               { tok := .eof, pos := ⟨2, 0⟩ }] 99 =
      some (none, [⟨"unexpected EOF", ⟨2, 0⟩⟩]) ∧
    tokenizeStr 99 "foo {} bar" =
      some [{ tok := .ident, value := "foo", pos := ⟨1, 0⟩ },
            { tok := .whitespace, value := " ", pos := ⟨4, 0⟩ },
            { tok := .lbrace, pos := ⟨5, 0⟩ },
            { tok := .rbrace, pos := ⟨6, 0⟩ },
            { tok := .whitespace, value := " ", pos := ⟨7, 0⟩ },
            { tok := .ident, value := "bar", pos := ⟨8, 0⟩ },
            { tok := .eof, pos := ⟨10, 0⟩ }] ∧
    ParseRule [{ tok := .ident, value := "foo", pos := ⟨1, 0⟩ },
               { tok := .whitespace, value := " ", pos := ⟨4, 0⟩ },
               { tok := .lbrace, pos := ⟨5, 0⟩ },
               { tok := .rbrace, pos := ⟨6, 0⟩ },
               { tok := .whitespace, value := " ", pos := ⟨7, 0⟩ },
               { tok := .ident, value := "bar", pos := ⟨8, 0⟩ },
               { tok := .eof, pos := ⟨10, 0⟩ }] 99 =
      some (none, [⟨"expected EOF, got bar", ⟨8, 0⟩⟩]) :=
  ⟨fun ws e f hw he hf => ParseRule_ws ws e hw he f hf, rfl, rfl, rfl, rfl, rfl, rfl⟩

/-- Witness for C7's universal conjunct at a one-whitespace-token stream. -/
theorem c7_parse_rule_error_handling_witness :
    ParseRule [{ tok := Tok.whitespace, value := " ", pos := ⟨1, 0⟩ },
               { tok := Tok.eof, pos := ⟨1, 0⟩ }] 2 =
      some (none, [⟨"unexpected EOF", ⟨1, 0⟩⟩]) :=
  c7_parse_rule_error_handling.1
    [{ tok := Tok.whitespace, value := " ", pos := ⟨1, 0⟩ }]
    { tok := Tok.eof, pos := ⟨1, 0⟩ } 2 (by decide) rfl (by decide)

/-- C4.  Scanning `100E-` yields a single Dimension token with kind
`integer`, repr (Value) `100E-`, unit `E-` and numeric value 100: the
partial exponent `E-` is not consumed into the number (it is unread in full)
and is then picked up as the dimension's unit.  In general the number
scanner only produces the kinds `integer` and `number`, and the kind is
`integer` exactly when the consumed representation contains no fractional
and no exponent component (no `.`, `e`, `E`). -/
theorem c4_partial_exponent_becomes_unit :
    ((tokenizeStr 99 "100E-").getD []).map
        (fun t => (t.tok, t.type, t.value, t.unit, t.pos)) =
      [(.dimension, "integer", "100E-", "E-", ⟨1, 0⟩), (.eof, "", "", "", ⟨5, 0⟩)] ∧
    ((tokenizeStr 99 "100E-").getD []).map Token.number = [goParseFloat "100", 0] ∧
    goParseFloat "100" = 100 ∧
    (∀ (fuel : Nat) (t : TState) (typ repr : String),
      (scanNumber fuel t).map (fun r => (r.2.1, r.2.2.1)) = some (typ, repr) →
      (typ = "integer" ∨ typ = "number") ∧ (typ = "integer" ↔ noDotE repr = true)) := by
  refine ⟨by rfl, by rfl, ?_, fun fuel t typ repr h => scanNumber_typ_proj fuel t typ repr h⟩
  have h : goParseFloat "100" =
      (1 : Rat) * (((100 : Nat) : Rat) + ((0 : Nat) : Rat) / (10 : Rat) ^ (0 : Nat)) *
        (10 : Rat) ^ ((1 : Int) * ((0 : Nat) : Int)) := rfl
  rw [h]
  norm_num

/-- Witness for C4's general conjunct at the two-digit integer input `12`. -/
theorem c4_partial_exponent_becomes_unit_witness :
    ("integer" = "integer" ∨ "integer" = "number") ∧
      ("integer" = "integer" ↔ noDotE "12" = true) :=
  c4_partial_exponent_becomes_unit.2.2.2 99 (mkTState ['1', '2']) "integer" "12" (by rfl)

/-- C8 counterexample.  The first token of input `a` carries position
`(line 0, char 1)`, not `(0, 0)` as the zero-based claim states: `read`
increments `char` before assigning the position (the repository's own
scanner tests assert `Pos{Char: 1, Line: 0}` throughout). -/
theorem c8_first_token_position_counterexample :
    ((tokenizeStr 99 "a").getD []).map Token.pos = [⟨1, 0⟩, ⟨1, 0⟩] ∧
    (⟨1, 0⟩ : Pos) ≠ (⟨0, 0⟩ : Pos) :=
  ⟨rfl, by decide⟩

/-- C9.  `scanHash` dispatch.  The first conjunct quantifies over every
CR/FF-free stream `s` following the `#` (a preprocessed CSS stream contains
neither `\r` nor `\f`): whenever the scan completes, the token is a Hash iff
the next code point of the preprocessed stream is a name code point or
begins a valid escape (`hashFollows`); otherwise it is exactly `Delim("#")`;
and a Hash's kind is `id` iff the code points after `#` form an identifier
(`identFollows`).  The remaining conjuncts run the pipeline on the claim's
examples: `#18273` gives `Hash(value "18273", kind "unrestricted")` and
`#-x` gives `Hash(value "-x", kind "id")`. -/
theorem c9_hash_token_dispatch :
    (∀ (s : List Char) (fuel : Nat) (tok : Token),
      crffFree s →
      (scanHash fuel (((mkTState ('#' :: s)).read).2)).map Prod.fst = some tok →
      (tok.tok = Tok.hash ↔ hashFollows (preprocessNul s) = true) ∧
      (tok.tok ≠ Tok.hash → tok.tok = Tok.delim ∧ tok.value = "#") ∧
      (tok.tok = Tok.hash → (tok.type = "id" ↔ identFollows (preprocessNul s) = true))) ∧
    ((tokenizeStr 99 "#18273").getD []).map (fun t => (t.tok, t.type, t.value, t.pos)) =
      [(.hash, "unrestricted", "18273", ⟨1, 0⟩), (.eof, "", "", ⟨6, 0⟩)] ∧
    ((tokenizeStr 99 "#-x").getD []).map (fun t => (t.tok, t.type, t.value, t.pos)) =
      [(.hash, "id", "-x", ⟨1, 0⟩), (.eof, "", "", ⟨3, 0⟩)] :=
  ⟨fun s fuel tok hs h => scanHash_spec_proj s hs fuel tok h, rfl, rfl⟩

/-- Witness for C9's universal conjunct at the stream `a` after the `#`. -/
theorem c9_hash_token_dispatch_witness :
    ((Token.mk Tok.hash "id" "a" 0 "" 0 0 0 ⟨1, 0⟩).tok = Tok.hash ↔
      hashFollows (preprocessNul ['a']) = true) ∧
    ((Token.mk Tok.hash "id" "a" 0 "" 0 0 0 ⟨1, 0⟩).tok ≠ Tok.hash →
      (Token.mk Tok.hash "id" "a" 0 "" 0 0 0 ⟨1, 0⟩).tok = Tok.delim ∧
      (Token.mk Tok.hash "id" "a" 0 "" 0 0 0 ⟨1, 0⟩).value = "#") ∧
    ((Token.mk Tok.hash "id" "a" 0 "" 0 0 0 ⟨1, 0⟩).tok = Tok.hash →
      ((Token.mk Tok.hash "id" "a" 0 "" 0 0 0 ⟨1, 0⟩).type = "id" ↔
        identFollows (preprocessNul ['a']) = true)) :=
  c9_hash_token_dispatch.1 ['a'] 9 (Token.mk Tok.hash "id" "a" 0 "" 0 0 0 ⟨1, 0⟩)
    (by intro c hc; simp at hc; subst hc; exact ⟨by decide, by decide⟩) (by rfl)

/-- C8 amended.  `read` increments `char` before stamping the position, so
positions are one-based in `char`: whenever the buffer holds no pushback,
reading a code point stamps `(char+1, line)` — and a newline (`\n`, `\f`, or
`\r`, all preprocessed to `\n`) stamps `(0, line+1)`, so the newline itself
carries `char 0` and the next code point of the new line carries `char 1`.
Consequently the first token of an input starts at `(char 1, line 0)`, as the
token positions of `ab\ncd` in the second conjunct show (`line` alone is
zero-based). -/
theorem c8_positions_one_based_char :
    (∀ (t : TState) (c : Char) (rest : List Char),
      t.bufn = 0 → t.rd = c :: rest →
      (t.read).2.pos =
        (if c = '\r' ∨ c = '\x0c' ∨ c = '\n' then (⟨0, t.pos.line + 1⟩ : Pos)
         else ⟨t.pos.char + 1, t.pos.line⟩)) ∧
    ((tokenizeStr 99 "ab\ncd").getD []).map Token.pos =
      [⟨1, 0⟩, ⟨0, 1⟩, ⟨1, 1⟩, ⟨2, 1⟩] :=
  ⟨fun t c rest hb hr => read_step_pos t c rest hb hr, rfl⟩

/-- Witness for C8's amended step lemma: the first read of input `x` stamps
position `(char 1, line 0)`. -/
theorem c8_positions_one_based_char_witness :
    (((mkTState ['x']).read).2).pos = ⟨1, 0⟩ := by
  have h := c8_positions_one_based_char.1 (mkTState ['x']) 'x' [] rfl rfl
  rw [if_neg (by decide)] at h
  exact h

/-- C10.  `ParseComponentValues` reports no error for any token stream: its
error component is the literal `nil` of `return a, nil`, so whenever it
produces a result at all, the error is `none`.  The later conjuncts run it on
the token stream of `foo func(bar) { baz }` (whose tokens the second conjunct
pins down) and observe that it completes with the nil error. -/
theorem c10_parse_component_values_nil_error :
    (∀ (toks : List Token) (fuel : Nat),
      (ParseComponentValues toks fuel).map Prod.snd = none ∨
      (ParseComponentValues toks fuel).map Prod.snd = some none) ∧
    tokenizeStr 99 "foo func(bar) { baz }" =
      some [{ tok := .ident, value := "foo", pos := ⟨1, 0⟩ },
            { tok := .whitespace, value := " ", pos := ⟨4, 0⟩ },
            { tok := .function, value := "func", pos := ⟨5, 0⟩ },
            { tok := .ident, value := "bar", pos := ⟨10, 0⟩ },
            { tok := .rparen, pos := ⟨13, 0⟩ },
            { tok := .whitespace, value := " ", pos := ⟨14, 0⟩ },
            { tok := .lbrace, pos := ⟨15, 0⟩ },
            { tok := .whitespace, value := " ", pos := ⟨16, 0⟩ },
            { tok := .ident, value := "baz", pos := ⟨17, 0⟩ },
            { tok := .whitespace, value := " ", pos := ⟨20, 0⟩ },
            { tok := .rbrace, pos := ⟨21, 0⟩ },
            { tok := .eof, pos := ⟨21, 0⟩ }] ∧
    (ParseComponentValues
      [{ tok := .ident, value := "foo", pos := ⟨1, 0⟩ },
       { tok := .whitespace, value := " ", pos := ⟨4, 0⟩ },
       { tok := .function, value := "func", pos := ⟨5, 0⟩ },
       { tok := .ident, value := "bar", pos := ⟨10, 0⟩ },
       { tok := .rparen, pos := ⟨13, 0⟩ },
       { tok := .whitespace, value := " ", pos := ⟨14, 0⟩ },
       { tok := .lbrace, pos := ⟨15, 0⟩ },
       { tok := .whitespace, value := " ", pos := ⟨16, 0⟩ },
       { tok := .ident, value := "baz", pos := ⟨17, 0⟩ },
       { tok := .whitespace, value := " ", pos := ⟨20, 0⟩ },
       { tok := .rbrace, pos := ⟨21, 0⟩ },
       { tok := .eof, pos := ⟨21, 0⟩ }] 99).map Prod.snd = some none := by
  refine ⟨?_, rfl, rfl⟩
  intro toks fuel
  unfold ParseComponentValues
  cases ParseComponentValuesLoop fuel [] ({ pending := toks } : TokSc) with
  | none => left; rfl
  | some r => right; rfl

end Css
